import Mathlib

/-!
# Verification of the async-flow simulation engine

A shallow embedding of the core simulation engine of the `async-flow`
repository (`src/simulation.ts`, types from `src/types.ts`), together with
theorems settling the specification claims about it.

Modelling conventions:
* JavaScript numbers are modelled as exact rationals (`ℚ`).  Every numeric
  value the engine manipulates (logical ticks, millisecond durations, x
  coordinates, alpha values) stays far away from any comparison threshold,
  so exact rational arithmetic and IEEE-754 double arithmetic take the same
  branches on everything proved here.  Rational arithmetic is routed through
  `qadd`/`qsub`/`qmul`/`qdiv` below (extensionally `+`, `-`, `*`, `/` on ℚ)
  because the Batteries `Rat.add` etc. are marked irreducible, which blocks
  kernel evaluation of concrete runs.
* The TypeScript class `Simulation` keeps its mutable state in `this.state`
  plus private fields (`speed`, `paused`, `nextId`, `nextReplicaId`,
  `lastActivityTick`, `roundRobinIndex`).  The embedding flattens
  `SimulationState` and the private fields into the single structure `Sim`;
  the split is purely organisational in the source (the private field
  `scaleDownDelay = 5000` of the class is dead code — `handleAutoscaling`
  reads `config.scaleDownDelayMs` — and is omitted).
* Fields of `Request` that are written but never read by any branch
  condition of the engine (`y`, `targetY`, `scale`) are omitted: every
  control-flow decision of `simulation.ts` reads only `state`, `priority`,
  `createdAt`, the time markers, `assignedReplica`, `x`, `targetX` and
  `alpha`.  The `Math.sin` pulse animations feed exclusively the omitted
  `scale` field; the only `Math.sin` term feeding `x` sits in the `failed`
  branch of `updateRequest`, which is dead code (see the C7 theorems), and
  is modelled by the constant `failedShake`.
* Mutation of a JS object held in an array is modelled by updating the list
  entry at the corresponding position; `Array.prototype.find` becomes
  "update the first matching entry", matching object identity because the
  engine only ever looks replicas up by their unique `id` (or by membership
  of a request id in `currentRequestIds`, taking the first match exactly
  like `find`).
* `Array.prototype.sort` (stable per ES2019) with comparator
  `(a, b) => a.k - b.k` is modelled by a stable insertion sort over the
  *positions* of the array entries, so ties keep array order exactly as in
  the source.
-/

set_option maxRecDepth 1000000
set_option maxHeartbeats 2000000

namespace AsyncFlow

/-! ## Exact rational arithmetic helpers (JS number semantics on exact values) -/

/-- Exact rational addition (kernel-reducible, unlike the irreducible
`Rat.add`). -/
def qadd (a b : ℚ) : ℚ := mkRat (a.num * b.den + b.num * a.den) (a.den * b.den)

/-- Exact rational subtraction. -/
def qsub (a b : ℚ) : ℚ := qadd a (-b)

/-- Exact rational multiplication. -/
def qmul (a b : ℚ) : ℚ := mkRat (a.num * b.num) (a.den * b.den)

/-- Exact rational division (`a / b`); division by zero yields 0 and is never
hit on the denominators the engine divides by (they are clamped `≥ 1`). -/
def qdiv (a b : ℚ) : ℚ := Rat.divInt (a.num * b.den) (a.den * b.num)

/-- `Math.abs`. -/
def qabs (a : ℚ) : ℚ := if a < 0 then -a else a

/-- `Math.max` on (exact, non-NaN) numbers. -/
def qmax (a b : ℚ) : ℚ := if a ≤ b then b else a

/-- `Math.min` on (exact, non-NaN) numbers. -/
def qmin (a b : ℚ) : ℚ := if a ≤ b then a else b

/-- `Math.ceil(n / m)` for natural `n` and `m ≥ 1` (both call sites divide by
a clamped-positive count). -/
def jsCeilDiv (n m : ℕ) : ℕ := (n + m - 1) / m

/-! ## Data model (`src/types.ts`) -/

/-- `RequestState` from `types.ts`.  The extra constructor
`waiting_capacity` appears only in filters of `simulation.ts` (legacy sync
mode) and is never assigned. -/
inductive RequestState where
  | entering
  | validating
  | queued
  | waiting_for_model
  | processing
  | delivering
  | completed
  | failed
  | expired
  | rate_limited
  | exiting
  | waiting_capacity
deriving DecidableEq, Repr

/-- `ReplicaState`; `types.ts` enumerates `stopped | starting | ready | busy`,
and `simulation.ts` additionally assigns the transient `'stopping'` state. -/
inductive ReplicaState where
  | stopped
  | starting
  | ready
  | busy
  | stopping
deriving DecidableEq, Repr

/-- `Request` (animation-only fields `y`, `targetY`, `scale` omitted, see the
header comment). -/
structure Request where
  id : String
  state : RequestState
  priority : ℕ
  createdAt : ℚ
  queuedAt : Option ℚ := none
  processorPickedAt : Option ℚ := none
  processStartedAt : Option ℚ := none
  completedAt : Option ℚ := none
  assignedReplica : Option ℕ := none
  x : ℚ
  targetX : ℚ
  alpha : ℚ
deriving DecidableEq, Repr

instance : Inhabited Request :=
  ⟨{ id := "", state := .entering, priority := 1, createdAt := 0, x := 0,
     targetX := 0, alpha := 1 }⟩

/-- `Replica`; `stoppingAt` is used by `simulation.ts` although absent from
the `types.ts` interface. -/
structure Replica where
  id : ℕ
  state : ReplicaState
  startingAt : Option ℚ := none
  stoppingAt : Option ℚ := none
  currentRequestIds : List String := []
deriving DecidableEq, Repr

instance : Inhabited Replica :=
  ⟨{ id := 0, state := .stopped }⟩

/-- `SimulationConfig`.  Count-valued fields are naturals (the UI clamps them
to small non-negative integers); time-valued fields are rationals. -/
structure SimConfig where
  modelProcessingTimeMs : ℚ
  coldStartTimeMs : ℚ
  predictConcurrency : ℕ
  minReplicas : ℕ
  maxReplicas : ℕ
  concurrencyTarget : ℕ
  scaleDownDelayMs : ℚ
  autoscalingWindowMs : ℚ
  maxQueueSize : ℕ
  maxTimeInQueueMs : ℚ
  webhookTimeMs : ℚ
deriving DecidableEq, Repr

/-- `DEFAULT_CONFIG` from `simulation.ts`. -/
def DEFAULT_CONFIG : SimConfig where
  modelProcessingTimeMs := 2000
  coldStartTimeMs := 3000
  predictConcurrency := 1
  minReplicas := 0
  maxReplicas := 10
  concurrencyTarget := 1
  scaleDownDelayMs := 15000
  autoscalingWindowMs := 5000
  maxQueueSize := 20
  maxTimeInQueueMs := 10000
  webhookTimeMs := 500

/-- `Metrics`. -/
structure Metrics where
  queued : ℕ
  processing : ℕ
  completed : ℕ
  failed : ℕ
  expired : ℕ
  replicas : ℕ
  readyReplicas : ℕ
deriving DecidableEq, Repr

/-- The full mutable state of the `Simulation` class: `this.state` flattened
together with the private fields (see the header comment). -/
structure Sim where
  tick : ℚ
  requests : List Request
  replicas : List Replica
  metrics : Metrics
  config : SimConfig
  targetReplicas : ℕ
  speed : ℚ
  paused : Bool
  nextId : ℕ
  nextReplicaId : ℕ
  lastActivityTick : ℚ
  roundRobinIndex : ℕ
deriving DecidableEq, Repr

/-! ## Layout constants (`STAGE_X` etc.); only the x positions are business
relevant (the `entering` and `delivering` transitions compare `x` with
`targetX`). -/

def stageXEnter : ℚ := -30
def stageXGateway : ℚ := 80
def stageXQueue : ℚ := 180
def stageXQueueEnd : ℚ := 320
def stageXModel : ℚ := 420
def stageXWebhook : ℚ := 720
def stageXExit : ℚ := 1050

/-- `getReplicaX(replica)` returns `STAGE_X.model + 70` independent of the
replica. -/
def replicaX : ℚ := qadd stageXModel 70

/-- Stand-in for `Math.sin(tick * 0.05) * 2` in the dead `failed` branch of
`updateRequest`; `failed` is never reached (see the C7 theorems) and the
value only perturbs the `x` of a `failed` request, which no property stated
in this file mentions. -/
def failedShake (_tick : ℚ) : ℚ := 0

/-! ## List helpers for in-place mutation -/

/-- Update the entry at position `i` (JS object mutation of an array
element). -/
def modifyIdx (l : List α) (i : ℕ) (f : α → α) : List α :=
  match l.get? i with
  | some a => l.set i (f a)
  | none => l

/-- Mutate the first replica satisfying `p` (JS `array.find(...)` followed by
mutation of the found object). -/
def modifyFirst (p : Replica → Bool) (f : Replica → Replica) :
    List Replica → List Replica
  | [] => []
  | r :: rest =>
    if p r then f r :: rest else r :: modifyFirst p f rest

/-- Stable insertion of `i` into an index list (used to model the stable
ES2019 `Array.prototype.sort`). -/
def stableInsert (le : ℕ → ℕ → Bool) (i : ℕ) : List ℕ → List ℕ
  | [] => [i]
  | j :: rest => if le i j then i :: j :: rest else j :: stableInsert le i rest

/-- Stable sort of an index list: equal-comparing indices keep their relative
order, exactly as the JS stable sort keeps array order on comparator ties. -/
def stableSort (le : ℕ → ℕ → Bool) : List ℕ → List ℕ
  | [] => []
  | i :: rest => stableInsert le i (stableSort le rest)

/-! ## Snapshot index lists -/

/-- Comparator of the queued-request sort:
`(a, b) => a.priority - b.priority`, ties by `a.createdAt - b.createdAt`
(stable sort semantics turn the numeric comparator into this `≤`). -/
def reqLeB (a b : Request) : Bool :=
  decide (a.priority < b.priority) ||
    (a.priority == b.priority && decide (a.createdAt ≤ b.createdAt))

/-- Index comparator over a request array. -/
def reqIdxLe (rs : List Request) (i j : ℕ) : Bool :=
  reqLeB (rs.getD i default) (rs.getD j default)

/-- Positions of the `queued` requests, in array order
(`requests.filter(r => r.state === 'queued')`). -/
def queuedIdx (rs : List Request) : List ℕ :=
  (List.range rs.length).filter (fun i => (rs.getD i default).state == .queued)

/-- Positions of the `queued` requests sorted by `(priority, createdAt)`. -/
def sortedQueuedIdx (rs : List Request) : List ℕ :=
  stableSort (reqIdxLe rs) (queuedIdx rs)

/-- Index comparator by replica id (`(a, b) => a.id - b.id`). -/
def repIdxLe (ps : List Replica) (i j : ℕ) : Bool :=
  decide ((ps.getD i default).id ≤ (ps.getD j default).id)

/-- Positions of the `ready`/`busy` replicas sorted by id. -/
def activeReplicaIdx (ps : List Replica) : List ℕ :=
  stableSort (repIdxLe ps)
    ((List.range ps.length).filter
      (fun i => (ps.getD i default).state == .ready ||
        (ps.getD i default).state == .busy))

/-- Positions of the `starting` replicas sorted by id. -/
def startingReplicaIdx (ps : List Replica) : List ℕ :=
  stableSort (repIdxLe ps)
    ((List.range ps.length).filter (fun i => (ps.getD i default).state == .starting))

/-! ## Replica claim bookkeeping -/

/-- Push a request id onto the first replica with id `rid` and recompute its
`ready`/`busy` state against `concurrencyTarget` (the claim made both in the
`waiting_for_model` branch of `updateRequest` and in
`tryAssignToReplicas`). -/
def claimSlot (ps : List Replica) (rid : ℕ) (reqId : String) (target : ℕ) :
    List Replica :=
  modifyFirst (fun p => p.id == rid)
    (fun p =>
      let ids := p.currentRequestIds ++ [reqId]
      { p with currentRequestIds := ids,
               state := if target ≤ ids.length then .busy else .ready }) ps

/-- Remove a request id from the first replica with id `rid` (expiry while
`waiting_for_model`; the source does not recompute the state here). -/
def releaseClaim (ps : List Replica) (rid : ℕ) (reqId : String) : List Replica :=
  modifyFirst (fun p => p.id == rid)
    (fun p => { p with currentRequestIds :=
        p.currentRequestIds.filter (fun x => x != reqId) }) ps

/-- Remove a request id from the first replica whose claim list contains it
and recompute `ready`/`busy` (processing completed). -/
def finishOnReplica (ps : List Replica) (reqId : String) (target : ℕ) :
    List Replica :=
  modifyFirst (fun p => p.currentRequestIds.contains reqId)
    (fun p =>
      let ids := p.currentRequestIds.filter (fun x => x != reqId)
      { p with currentRequestIds := ids,
               state := if target ≤ ids.length then .busy else .ready }) ps

/-! ## `repositionQueue` -/

/-- Write the queue slot positions: the k-th queued request (in
`(priority, createdAt)` order) gets `targetX = queue + k * spacing`. -/
def applySlots (rs : List Request) (spacing : ℚ) : List (ℕ × ℕ) → List Request
  | [] => rs
  | (k, i) :: rest =>
    applySlots
      (modifyIdx rs i (fun r =>
        { r with targetX := qadd stageXQueue (qmul (mkRat k 1) spacing) })) spacing rest

/-- `repositionQueue()`. -/
def repositionQueue (s : Sim) : Sim :=
  let qs := sortedQueuedIdx s.requests
  let spacing := qmin 35
    (qdiv (qsub stageXQueueEnd stageXQueue) (mkRat (max qs.length 1 : ℕ) 1))
  { s with requests := applySlots s.requests spacing qs.enum }

/-! ## `updateRequest` -/

/-- The position interpolation done at the top of `updateRequest`
(`lerpFactor = 0.12`; only the business-relevant `x` is kept). -/
def lerpReq (r : Request) : Request :=
  { r with x := qadd r.x (qmul (qsub r.targetX r.x) (mkRat 3 25)) }

/-- One call of `updateRequest(request, delta)` for the request at position
`i`, threading the whole engine state because the `validating` branch calls
`repositionQueue` and two branches mutate replicas. -/
def updateRequestAt (s : Sim) (i : ℕ) : Sim :=
  match s.requests.get? i with
  | none => s
  | some r0 =>
    let r := lerpReq r0
    let s1 := { s with requests := s.requests.set i r }
    match r.state with
    | .entering =>
        if qabs (qsub r.x r.targetX) < 2 then
          { s1 with requests := s1.requests.set i { r with state := .validating } }
        else s1
    | .validating =>
        let r1 := { r with
          state := .queued, queuedAt := some s.tick, targetX := stageXQueue }
        let s2 := repositionQueue { s1 with requests := s1.requests.set i r1 }
        { s2 with lastActivityTick := s2.tick }
    | .queued =>
        let timeInQueue := qsub s.tick (r.queuedAt.getD 0)
        if s.config.maxTimeInQueueMs < timeInQueue then
          { s1 with
            requests :=
              s1.requests.set i { r with state := .expired, targetX := stageXExit } }
        else s1
    | .waiting_for_model =>
        let target := s.config.concurrencyTarget
        let found := s.replicas.find? (fun p => some p.id == r.assignedReplica)
        let claimed :=
          match found with
          | some p => p.state == ReplicaState.ready
          | none => false
        let s2 :=
          match found with
          | some p =>
            if p.state = .ready then
              let r1 := { r with
                state := .processing, processStartedAt := some s.tick,
                targetX := replicaX }
              { s1 with
                requests := s1.requests.set i r1,
                replicas := claimSlot s1.replicas p.id r.id target }
            else s1
          | none => s1
        let coldStartWaitTime := qsub s.tick (r.processorPickedAt.getD 0)
        if s.config.maxTimeInQueueMs < coldStartWaitTime then
          let r2 :=
            if claimed then
              { r with
                state := .expired, processStartedAt := some s.tick,
                targetX := stageXExit }
            else { r with state := .expired, targetX := stageXExit }
          { s2 with
            requests := s2.requests.set i r2,
            replicas :=
              match found with
              | some p => releaseClaim s2.replicas p.id r.id
              | none => s2.replicas }
        else s2
    | .processing =>
        let processingTime := qsub s.tick (r.processStartedAt.getD 0)
        if s.config.modelProcessingTimeMs < processingTime then
          { s1 with
            requests := s1.requests.set i
              { r with state := .delivering, targetX := stageXWebhook },
            replicas := finishOnReplica s1.replicas r.id s.config.concurrencyTarget,
            lastActivityTick := s.tick }
        else s1
    | .delivering =>
        if qabs (qsub r.x r.targetX) < 5 then
          let deliveryTime :=
            qsub (qsub s.tick (r.processStartedAt.getD 0)) s.config.modelProcessingTimeMs
          if s.config.webhookTimeMs < deliveryTime then
            { s1 with
              requests := s1.requests.set i
                { r with
                  state := .completed, completedAt := some s.tick,
                  targetX := stageXExit } }
          else s1
        else s1
    | .completed =>
        if qadd stageXWebhook 50 < r.x then
          let a := qmax 0 (qsub r.alpha (mkRat 1 50))
          { s1 with
            requests := s1.requests.set i
              { r with
                alpha := a,
                state := if a ≤ mkRat 1 100 then .exiting else .completed } }
        else s1
    | .failed =>
        let r1 := { r with x := qadd r.x (failedShake s.tick) }
        if qadd stageXWebhook 30 < r1.x then
          let a := qmax 0 (qsub r1.alpha (mkRat 3 200))
          { s1 with
            requests := s1.requests.set i
              { r1 with
                alpha := a,
                state := if a ≤ mkRat 1 100 then .exiting else .failed } }
        else { s1 with requests := s1.requests.set i r1 }
    | .expired =>
        let a := qmax 0 (qsub r.alpha (mkRat 1 100))
        { s1 with
          requests := s1.requests.set i
            { r with
              alpha := a,
              state := if a ≤ mkRat 1 100 then .exiting else .expired } }
    | .exiting => s1
    | .rate_limited => s1
    | .waiting_capacity => s1

/-- `for (const request of this.state.requests) this.updateRequest(...)`:
the loop body never adds or removes array entries, so it is an index loop
over the initial length. -/
def updateAllRequests (s : Sim) : Sim :=
  (List.range s.requests.length).foldl updateRequestAt s

/-! ## `updateReplica` -/

/-- `updateReplica(replica, delta)`.  JS truthiness: the guards
`replica.startingAt` / `replica.stoppingAt` are false for the number 0, so a
timer that happens to be 0 never fires. -/
def updateReplica (tick coldStart : ℚ) (p : Replica) : Replica :=
  let p1 :=
    match p.startingAt with
    | some t =>
      if p.state = ReplicaState.starting ∧ t ≠ 0 then
        if coldStart ≤ qsub tick t then
          { p with state := .ready, startingAt := none }
        else p
      else p
    | none => p
  match p1.stoppingAt with
  | some t =>
    if p1.state = ReplicaState.stopping ∧ t ≠ 0 then
      if (1000 : ℚ) ≤ qsub tick t then
        { p1 with state := .stopped, stoppingAt := none }
      else p1
    else p1
  | none => p1

/-! ## Autoscaling and reconciliation -/

/-- `setTargetReplicas(count)`: clamp to `[0, maxReplicas]`
(`Math.max(0, Math.min(count, maxReplicas))`) and stamp the activity
timer. -/
def setTargetReplicas (s : Sim) (count : ℤ) : Sim :=
  { s with
    targetReplicas :=
      (if count ≤ (s.config.maxReplicas : ℤ) then count
       else (s.config.maxReplicas : ℤ)).toNat,
    lastActivityTick := s.tick }

/-- `min(Math.ceil(load / concurrencyTarget), maxReplicas)`; for
`concurrencyTarget = 0` JS computes `min(Infinity, maxReplicas)` (the guard
ensures `load ≥ 1`), i.e. `maxReplicas`. -/
def scaleUpTarget (load target maxR : ℕ) : ℕ :=
  if target = 0 then maxR else min (jsCeilDiv load target) maxR

/-- Scale-up loop of `reconcileReplicas` (restart a stopped replica, else
create a new one while under `maxReplicas`, else break).  `fuel` bounds the
iteration count; the loop body increases `active` towards
`targetReplicas`, so `fuel = targetReplicas` never cuts the loop short. -/
def scaleUpLoop (fuel : ℕ) (s : Sim) (active : ℕ) : Sim × ℕ :=
  match fuel with
  | 0 => (s, active)
  | fuel + 1 =>
    if active < s.targetReplicas then
      match (List.range s.replicas.length).find?
          (fun i => (s.replicas.getD i default).state == .stopped) with
      | some j =>
        scaleUpLoop fuel
          { s with
            replicas := modifyIdx s.replicas j
              (fun p => { p with
                state := .starting, startingAt := some s.tick,
                currentRequestIds := [] }) }
          (active + 1)
      | none =>
        if s.replicas.length < s.config.maxReplicas then
          scaleUpLoop fuel
            { s with
              replicas := s.replicas ++
                [{ id := s.nextReplicaId, state := .starting,
                   startingAt := some s.tick, currentRequestIds := [] }],
              nextReplicaId := s.nextReplicaId + 1 }
            (active + 1)
        else (s, active)
    else (s, active)

/-- Scale-down loop of `reconcileReplicas` (stop a `ready` replica with no
claims, else break).  `fuel = replicas.length` bounds the iterations (each
one consumes a distinct `ready` replica). -/
def scaleDownLoop (fuel : ℕ) (s : Sim) (active : ℕ) : Sim :=
  match fuel with
  | 0 => s
  | fuel + 1 =>
    if s.targetReplicas < active then
      match (List.range s.replicas.length).find?
          (fun i => (s.replicas.getD i default).state == .ready &&
            (s.replicas.getD i default).currentRequestIds.isEmpty) with
      | some j =>
        scaleDownLoop fuel
          { s with
            replicas := modifyIdx s.replicas j
              (fun p => { p with
                state := .stopping, stoppingAt := some s.tick,
                startingAt := none, currentRequestIds := [] }) }
          (active - 1)
      | none => s
    else s

/-- `reconcileReplicas()`: the local `activeReplicas` array is only ever
consulted for its length, which both loops keep in their `active`
argument. -/
def reconcileReplicas (s : Sim) : Sim :=
  let active := (s.replicas.filter (fun p => p.state != .stopped)).length
  let su := scaleUpLoop s.targetReplicas s active
  scaleDownLoop su.1.replicas.length su.1 su.2

/-- `handleAutoscaling()` (including the trailing `reconcileReplicas`). -/
def handleAutoscaling (s : Sim) : Sim :=
  let waitingCount := (s.requests.filter (fun r =>
    r.state == .queued || r.state == .waiting_capacity ||
      r.state == .waiting_for_model)).length
  let processingCount := (s.requests.filter (fun r => r.state == .processing)).length
  let activeReplicas := (s.replicas.filter (fun p =>
    p.state == .ready || p.state == .busy)).length
  let startingReplicas := (s.replicas.filter (fun p => p.state == .starting)).length
  let totalReplicas := activeReplicas + startingReplicas
  let currentCapacity := totalReplicas * s.config.concurrencyTarget
  let s1 :=
    if currentCapacity < waitingCount + processingCount ∧
        totalReplicas < s.config.maxReplicas then
      let target := scaleUpTarget (waitingCount + processingCount)
        s.config.concurrencyTarget s.config.maxReplicas
      if s.targetReplicas < target then setTargetReplicas s target else s
    else s
  let s2 :=
    if (0 < waitingCount ∨ 0 < processingCount) ∧ totalReplicas = 0 then
      setTargetReplicas s1 (max 1 s1.config.minReplicas : ℕ)
    else s1
  let idleTime := qsub s2.tick s2.lastActivityTick
  let allIdle := s2.replicas.all (fun p => p.state == .ready || p.state == .stopped)
  let noRequests := (s2.requests.filter (fun r =>
    r.state != .exiting && r.state != .completed && r.state != .failed &&
      r.state != .rate_limited)).length = 0
  let s3 :=
    if allIdle ∧ noRequests ∧ s2.config.scaleDownDelayMs < idleTime then
      if s2.config.minReplicas < s2.targetReplicas then
        setTargetReplicas s2 s2.config.minReplicas
      else s2
    else s2
  reconcileReplicas s3

/-! ## `tryAssignToReplicas` -/

/-- The inner scan of the round-robin dispatch: try the active replicas at
positions `(start + o) % n` of `activeIdx` for `o = 0, 1, ...`, returning
the first position whose replica has spare capacity. -/
def findSlotAux (s : Sim) (activeIdx : List ℕ) (start : ℕ) (o : ℕ) :
    ℕ → Option ℕ
  | 0 => none
  | k + 1 =>
    let pos := (start + o) % activeIdx.length
    if (s.replicas.getD (activeIdx.getD pos 0) default).currentRequestIds.length <
        s.config.concurrencyTarget then
      some pos
    else findSlotAux s activeIdx start (o + 1) k

/-- Assign the request at position `reqIdx` to the replica at position
`repIdx` (chosen at round-robin position `pos` among `n` active replicas). -/
def assignReady (s : Sim) (reqIdx repIdx pos n : ℕ) : Sim :=
  let rid := (s.replicas.getD repIdx default).id
  let s1 := { s with
    requests := modifyIdx s.requests reqIdx (fun r =>
      { r with
        state := .processing, processStartedAt := some s.tick,
        processorPickedAt := some s.tick, assignedReplica := some rid,
        targetX := replicaX }),
    replicas := claimSlot s.replicas rid
      ((s.requests.getD reqIdx default).id) s.config.concurrencyTarget,
    roundRobinIndex := (pos + 1) % n }
  repositionQueue s1

/-- The ready-capacity pass: walk the sorted queued requests once, assigning
each to the first replica with spare capacity scanning from the round-robin
cursor; break out of the whole loop as soon as a request cannot be placed.
The second component lists the request positions assigned, in order (ghost
instrumentation; the engine state in the first component is the faithful
translation). -/
def assignLoop (activeIdx : List ℕ) : List ℕ → Sim → Sim × List ℕ
  | [], s => (s, [])
  | reqIdx :: rest, s =>
    match findSlotAux s activeIdx s.roundRobinIndex 0 activeIdx.length with
    | some pos =>
      let s1 := assignReady s reqIdx (activeIdx.getD pos 0) pos activeIdx.length
      let (s2, ghost) := assignLoop activeIdx rest s1
      (s2, reqIdx :: ghost)
    | none => (s, [])

/-- `assignToStartingReplicas(queued)` body: `limit` is
`Math.ceil(queued.length / startingReplicas.length) + 1` (constant through
the loop), `k` the running `startingIndex`. -/
def assignStartingLoop (startingIdx : List ℕ) (limit : ℕ) (k : ℕ) :
    List ℕ → Sim → Sim
  | [], s => s
  | reqIdx :: rest, s =>
    let rep := s.replicas.getD (startingIdx.getD (k % startingIdx.length) 0) default
    let waitingForThisReplica := (s.requests.filter (fun r =>
      r.assignedReplica == some rep.id && r.state == .waiting_for_model)).length
    let s1 :=
      if waitingForThisReplica < limit then
        repositionQueue { s with
          requests := modifyIdx s.requests reqIdx (fun r =>
            { r with
              state := .waiting_for_model,
              processorPickedAt := some s.tick, assignedReplica := some rep.id,
              targetX := qsub (qsub stageXModel 20)
                (qmul (mkRat waitingForThisReplica 1) 25) }) }
      else s
    assignStartingLoop startingIdx limit (k + 1) rest s1

/-- `assignToStartingReplicas(queued)`. -/
def assignToStartingReplicas (s : Sim) (queuedPos : List ℕ) : Sim :=
  if queuedPos.isEmpty then s
  else
    let startingIdx := startingReplicaIdx s.replicas
    if startingIdx.isEmpty then s
    else
      assignStartingLoop startingIdx
        (jsCeilDiv queuedPos.length startingIdx.length + 1) 0 queuedPos s

/-- `tryAssignToReplicas()`. -/
def tryAssignToReplicas (s : Sim) : Sim :=
  let waiting := sortedQueuedIdx s.requests
  let activeIdx := activeReplicaIdx s.replicas
  if activeIdx.isEmpty then
    assignToStartingReplicas s waiting
  else
    let s1 := (assignLoop activeIdx waiting s).1
    assignToStartingReplicas s1 (queuedIdx s1.requests)

/-- Ghost view of the ready-capacity pass only: the request positions it
assigns, in assignment order (empty when there is no active replica and the
pass is skipped). -/
def readyPassAssigned (s : Sim) : List ℕ :=
  let activeIdx := activeReplicaIdx s.replicas
  if activeIdx.isEmpty then []
  else (assignLoop activeIdx (sortedQueuedIdx s.requests) s).2

/-! ## `updateMetrics` and the step function -/

/-- `updateMetrics()`: recomputes `queued`, `processing`, `replicas`,
`readyReplicas` from the collections; it does not touch the cumulative
`completed`/`failed`/`expired` counters. -/
def updateMetrics (s : Sim) : Sim :=
  { s with metrics := { s.metrics with
      queued := (s.requests.filter (fun r =>
        r.state == .queued || r.state == .waiting_capacity ||
          r.state == .waiting_for_model)).length,
      processing := (s.requests.filter (fun r => r.state == .processing)).length,
      replicas := (s.replicas.filter (fun p => p.state != .stopped)).length,
      readyReplicas := (s.replicas.filter (fun p => p.state == .ready)).length } }

/-- `tick(deltaMs)` — the `Advance` step (named `step` because `tick` is the
state field holding the logical time). -/
def Sim.step (s : Sim) (deltaMs : ℚ) : Sim :=
  if s.paused then s
  else
    let s0 := { s with tick := qadd s.tick (qmul deltaMs s.speed) }
    let s1 := updateAllRequests s0
    let s2 := { s1 with
      replicas := s1.replicas.map (updateReplica s1.tick s1.config.coldStartTimeMs) }
    let s3 := { s2 with
      requests := s2.requests.filter (fun r =>
        r.state != .exiting || decide (mkRat 1 100 < r.alpha)) }
    let s4 := handleAutoscaling s3
    let s5 := tryAssignToReplicas s4
    updateMetrics s5

/-! ## Remaining public operations -/

def initialMetrics : Metrics :=
  { queued := 0, processing := 0, completed := 0, failed := 0, expired := 0,
    replicas := 0, readyReplicas := 0 }

/-- The constructor (with the caller's partial config already merged into
`DEFAULT_CONFIG`, i.e. `cfg` is the merged configuration). -/
def Sim.init (cfg : SimConfig) : Sim :=
  let s : Sim :=
    { tick := 0, requests := [], replicas := [], metrics := initialMetrics,
      config := cfg, targetReplicas := cfg.minReplicas, speed := 1,
      paused := false, nextId := 0, nextReplicaId := 0, lastActivityTick := 0,
      roundRobinIndex := 0 }
  if 0 < cfg.minReplicas then setTargetReplicas s cfg.minReplicas else s

/-- `addRequest(priority)` (the returned id is `"req-" ++ nextId`). -/
def Sim.addRequest (s : Sim) (priority : ℕ) : Sim :=
  let r : Request :=
    { id := "req-" ++ toString s.nextId, state := .entering, priority,
      createdAt := s.tick, x := stageXEnter, targetX := stageXGateway, alpha := 1 }
  { s with
    requests := s.requests ++ [r], nextId := s.nextId + 1,
    lastActivityTick := s.tick }

/-- `setSpeed(speed)`: clamp to `[0.1, 10]`. -/
def Sim.setSpeed (s : Sim) (speed : ℚ) : Sim :=
  { s with speed := qmax (mkRat 1 10) (qmin 10 speed) }

def Sim.setPaused (s : Sim) (b : Bool) : Sim := { s with paused := b }

def Sim.togglePause (s : Sim) : Sim := { s with paused := !s.paused }

/-- `reset()` (speed and pause flag are kept, as in the source). -/
def Sim.reset (s : Sim) : Sim :=
  let s1 := { s with
    tick := 0, requests := [], replicas := [],
    metrics := initialMetrics, targetReplicas := s.config.minReplicas,
    nextId := 0, nextReplicaId := 0, lastActivityTick := 0, roundRobinIndex := 0 }
  if 0 < s1.config.minReplicas then setTargetReplicas s1 s1.config.minReplicas else s1

/-- `setConfig(partial)`: `Object.assign` merge; any merged outcome is some
full configuration, so the model takes the merged configuration directly. -/
def Sim.setConfig (s : Sim) (cfg : SimConfig) : Sim := { s with config := cfg }

/-- `recordCompleted()` — a public method mutating the cumulative counter. -/
def Sim.recordCompleted (s : Sim) : Sim :=
  { s with metrics := { s.metrics with completed := s.metrics.completed + 1 } }

/-- `recordFailed()`. -/
def Sim.recordFailed (s : Sim) : Sim :=
  { s with metrics := { s.metrics with failed := s.metrics.failed + 1 } }

/-- `recordExpired()`. -/
def Sim.recordExpired (s : Sim) : Sim :=
  { s with metrics := { s.metrics with expired := s.metrics.expired + 1 } }

/-! ## Concrete demonstration runs

Each run is a fresh engine driven only by public operations, so every state
in it is reachable. -/

/-- Configuration where capacity (`predictConcurrency`) and the scaling
target (`concurrencyTarget`) differ: capacity 1, target 2, a single
permanent worker. -/
def capacityCfg : SimConfig :=
  { DEFAULT_CONFIG with
    predictConcurrency := 1, concurrencyTarget := 2,
    minReplicas := 1, maxReplicas := 1 }

/-- Two `AddItem(1)` calls at tick 0, then `Advance(100)` n times, under
`capacityCfg`. -/
def capacityRun (n : ℕ) : Sim :=
  (List.range n).foldl (fun s _ => s.step 100)
    (((Sim.init capacityCfg).addRequest 1).addRequest 1)

/-- Default configuration (the defaults of `DEFAULT_CONFIG` are exactly the
ones named by Scenario 1): one `AddItem(1)` at tick 0, then `Advance(100)` n
times. -/
def coldStartRun (n : ℕ) : Sim :=
  (List.range n).foldl (fun s _ => s.step 100) ((Sim.init DEFAULT_CONFIG).addRequest 1)

/-- One permanent worker with per-worker capacity 1 and no room to scale up;
two identical-priority `AddItem(1)` calls at tick 0, then `Advance(100)`
n times. -/
def fifoCfg : SimConfig :=
  { DEFAULT_CONFIG with minReplicas := 1, maxReplicas := 1 }

def fifoRun (n : ℕ) : Sim :=
  (List.range n).foldl (fun s _ => s.step 100)
    (((Sim.init fifoCfg).addRequest 1).addRequest 1)

/-- A manual `SetTargetWorkers(1)` at tick 0 and nothing else, then
`Advance(1000)` n times; no item is ever admitted. -/
def idleRun (n : ℕ) : Sim :=
  (List.range n).foldl (fun s _ => s.step 1000)
    (setTargetReplicas (Sim.init DEFAULT_CONFIG) 1)

/-- A `recordCompleted()` call on a fresh engine followed by one
`Advance(100)`. -/
def recordedSim : Sim := ((Sim.init DEFAULT_CONFIG).recordCompleted).step 100

/-! ## C1: the dispatch/claim capacity bound is `concurrencyTarget`, not
`predictConcurrency` -/

/-- C1 counterexample: the claim states `len(currentItemIds)` is bounded by
the capacity field `predictConcurrency` even when it differs from
`concurrencyTarget`.  Under `capacityCfg` (`predictConcurrency = 1`,
`concurrencyTarget = 2`) the reachable state after 33 steps has the single
worker claiming 2 items — its claim-list length exceeds
`predictConcurrency`, which the engine never reads. -/
theorem C1_counterexample :
    (capacityRun 33).config.predictConcurrency = 1 ∧
    (capacityRun 33).replicas.map (fun p => p.currentRequestIds.length) = [2] := by
  constructor
  · rfl
  · decide

/-! ## C2: three of the metrics are cumulative counters, not derived -/

/-- C2 counterexample: `metrics.completed` is mutated by the public
`recordCompleted()` path and an `Advance` step does not recompute it from the
item collection (which is empty here, so a derived value would be 0). -/
theorem C2_counterexample :
    recordedSim.metrics.completed = 1 ∧ recordedSim.requests = [] := by
  constructor <;> decide

/-! ## C3: cold-start scenario milestones -/

/-- C3 counterexample: at tick 0 the admitted item is still `entering` (the
entry animation has not settled, so it is not `queued`) and no worker exists
at all (the autoscaler only reacts once the item is counted as waiting);
when the item finally queues, its `queuedAt` stamp is 3300, not 0. -/
theorem C3_counterexample :
    (coldStartRun 0).tick = 0 ∧
    (coldStartRun 0).requests.map (fun r => r.state) = [.entering] ∧
    (coldStartRun 0).replicas = [] ∧
    (coldStartRun 33).requests.map (fun r => r.queuedAt) = [some 3300] := by
  refine ⟨rfl, by decide, by decide, by decide⟩

/-- C3 amended: the actual milestones of the cold-start scenario with 100 ms
steps.  The item queues at tick 3300 (the step its entry animation settles),
the first worker is created `starting` in that same step and the item
immediately moves on to `waiting_for_model`; the worker becomes `ready` at
tick 6300 (3000 ms of cold start after 3300); the item enters `processing`
one step later at tick 6400 (worker timers are advanced after item updates);
`delivering` begins at tick 8500 (> 6400 + 2000); `completed` is reached at
tick 11600 (the webhook travel animation dominates the 500 ms delivery
threshold). -/
theorem C3_amended :
    ((coldStartRun 0).tick = 0 ∧
      (coldStartRun 0).requests.map (fun r => r.state) = [.entering] ∧
      (coldStartRun 0).replicas = []) ∧
    ((coldStartRun 33).tick = 3300 ∧
      (coldStartRun 33).requests.map
        (fun r => (r.state, r.queuedAt, r.processorPickedAt)) =
        [(.waiting_for_model, some 3300, some 3300)] ∧
      (coldStartRun 33).replicas.map (fun p => (p.state, p.startingAt)) =
        [(.starting, some 3300)]) ∧
    ((coldStartRun 62).replicas.map (fun p => p.state) = [.starting] ∧
      (coldStartRun 63).replicas.map (fun p => p.state) = [.ready] ∧
      (coldStartRun 63).requests.map (fun r => r.state) = [.waiting_for_model]) ∧
    ((coldStartRun 64).requests.map (fun r => (r.state, r.processStartedAt)) =
      [(.processing, some 6400)]) ∧
    ((coldStartRun 84).requests.map (fun r => r.state) = [.processing] ∧
      (coldStartRun 85).requests.map (fun r => r.state) = [.delivering]) ∧
    ((coldStartRun 115).requests.map (fun r => r.state) = [.delivering] ∧
      (coldStartRun 116).requests.map (fun r => (r.state, r.completedAt)) =
        [(.completed, some 11600)]) := by
  refine ⟨⟨rfl, by decide, by decide⟩, ⟨by decide, by decide, by decide⟩,
    ⟨by decide, by decide, by decide⟩, by decide, ⟨by decide, by decide⟩,
    ⟨by decide, by decide⟩⟩

/-! ## C4: ties in `(priority, createdAt)` are broken by insertion order -/

/-- C4 counterexample: both items have the identical key `(1, 0)`, so each
is lexicographically `≤` the other; with one capacity-1 worker the dispatch
pass assigns `req-0` and leaves `req-1` queued, i.e. the item `A = req-1`
(whose key is `≤` the key of `B = req-0`) is skipped in favor of `B`, so the
claim with non-strict `≤` fails. -/
theorem C4_counterexample :
    ((fifoRun 33).requests.map (fun r => (r.id, r.priority, r.createdAt, r.state)) =
      [("req-0", 1, 0, .processing), ("req-1", 1, 0, .queued)]) ∧
    ((fifoRun 33).replicas.map (fun p => (p.state, p.currentRequestIds)) =
      [(.busy, ["req-0"])]) := by
  constructor <;> decide

/-! ## C8: the autoscaler also stamps the activity timer -/

/-- C8 counterexample: a run with a single manual `SetTargetWorkers(1)` at
tick 0 and no item ever admitted.  Were the claim true, `lastActivity` would
stay 0 forever; at the step crossing the 15000 ms scale-down delay the
autoscaler calls the target setter internally and stamps `lastActivity` to
16000 — with no admission, no processing completion and no external
`SetTargetWorkers` call in that step. -/
theorem C8_counterexample :
    (idleRun 15).lastActivityTick = 0 ∧
    (idleRun 15).requests = [] ∧
    (idleRun 16).requests = [] ∧
    (idleRun 16).lastActivityTick = 16000 ∧
    (idleRun 16).targetReplicas = 0 := by
  refine ⟨by decide, by decide, by decide, by decide, by decide⟩

/-! ## C10: expiry evaluated after the ready-claim in the same step -/

lemma not_mem_filter_ne (x : String) (l : List String) :
    x ∉ l.filter (fun y => y != x) := by
  simp [List.mem_filter]

/-- After a claim immediately released again, the request id is on no
replica, provided it was on none to begin with. -/
lemma releaseClaim_claimSlot_not_mem (ps : List Replica) (rid : ℕ) (x : String)
    (t : ℕ) (h : ∀ q ∈ ps, x ∉ q.currentRequestIds) :
    ∀ q ∈ releaseClaim (claimSlot ps rid x t) rid x, x ∉ q.currentRequestIds := by
  induction ps with
  | nil =>
    intro q hq
    simp [claimSlot, releaseClaim, modifyFirst] at hq
  | cons p rest ih =>
    intro q hq
    by_cases hp : (p.id == rid) = true
    · simp only [claimSlot, releaseClaim, modifyFirst, hp, if_true] at hq
      rcases List.mem_cons.mp hq with h1 | h1
      · subst h1
        exact not_mem_filter_ne x _
      · exact h q (List.mem_cons_of_mem p h1)
    · simp only [claimSlot, releaseClaim, modifyFirst, hp, if_false,
        Bool.false_eq_true] at hq
      rcases List.mem_cons.mp hq with h1 | h1
      · rw [h1]
        exact h p (List.mem_cons_self p rest)
      · exact ih (fun q2 hq2 => h q2 (List.mem_cons_of_mem p hq2)) q h1

/-- The record an item ends the step with when the ready-claim and the TTL
expiry fire in the same `updateRequest` call. -/
def expiredAfterClaim (r : Request) (tick : ℚ) : Request :=
  { lerpReq r with
    state := .expired, processStartedAt := some tick, targetX := stageXExit }

/-- C10: if within one Advance step an item in `waiting_for_model` finds its
assigned worker `ready` (claiming a capacity slot, setting
`processStartedAt` and moving to `processing`) while also having exceeded
`maxTimeInQueueMs` measured from `processorPickedAt`, then the expiry check
(evaluated after the ready-claim in the same `updateRequest` call) wins: the
item ends the step `expired` — not `processing` — with `processStartedAt`
set, and its id is on no worker's claim list (the fresh claim is released
again). -/
theorem C10_expiry_after_claim (s : Sim) (i : ℕ) (r : Request) (p : Replica)
    (hr : s.requests.get? i = some r)
    (hstate : r.state = .waiting_for_model)
    (hfind : s.replicas.find? (fun q => some q.id == r.assignedReplica) = some p)
    (hready : p.state = .ready)
    (hover : s.config.maxTimeInQueueMs < qsub s.tick (r.processorPickedAt.getD 0))
    (hnotin : ∀ q ∈ s.replicas, r.id ∉ q.currentRequestIds) :
    ((updateRequestAt s i).requests.get? i = some (expiredAfterClaim r s.tick)) ∧
    (∀ q ∈ (updateRequestAt s i).replicas, r.id ∉ q.currentRequestIds) := by
  have hi : i < s.requests.length := (List.get?_eq_some.mp hr).1
  have hclaimed : (match s.replicas.find? (fun q => some q.id == r.assignedReplica) with
      | some q0 => q0.state == ReplicaState.ready
      | none => false) = true := by
    rw [hfind]
    simp [hready]
  simp only [updateRequestAt, hr, lerpReq, hstate, hfind, hready, hover, hclaimed,
    if_true]
  constructor
  · simp only [List.set_set, beq_self_eq_true, if_true,
      List.get?_eq_getElem?, List.getElem?_set_self]
    simp [hi, expiredAfterClaim, lerpReq]
  · exact releaseClaim_claimSlot_not_mem s.replicas p.id r.id
      s.config.concurrencyTarget hnotin

/-- Concrete state for the C10 witness: one item waiting 20000 ms for its
(now ready) worker under the default 10000 ms TTL. -/
def lateBloomReq : Request :=
  { id := "req-0", state := .waiting_for_model, priority := 1, createdAt := 0,
    queuedAt := some 0, processorPickedAt := some 0, assignedReplica := some 0,
    x := 400, targetX := 400, alpha := 1 }

def lateBloomRep : Replica :=
  { id := 0, state := .ready, startingAt := none, stoppingAt := none,
    currentRequestIds := [] }

def lateBloomSim : Sim :=
  { tick := 20000, requests := [lateBloomReq], replicas := [lateBloomRep],
    metrics := initialMetrics, config := DEFAULT_CONFIG, targetReplicas := 1,
    speed := 1, paused := false, nextId := 1, nextReplicaId := 1,
    lastActivityTick := 0, roundRobinIndex := 0 }

/-- Witness for C10 at a concrete state. -/
theorem C10_expiry_after_claim_witness :
    (updateRequestAt lateBloomSim 0).requests.get? 0 =
      some (expiredAfterClaim lateBloomReq lateBloomSim.tick) :=
  (C10_expiry_after_claim lateBloomSim 0 lateBloomReq lateBloomRep (by decide)
    (by decide) (by decide) (by decide) (by decide) (by decide)).1

/-! ## Frame lemmas: which engine fields each phase leaves unchanged -/

lemma foldl_preserve {α β : Type} (f : Sim → α → Sim) (g : Sim → β)
    (hf : ∀ s a, g (f s a) = g s) (l : List α) (s : Sim) :
    g (l.foldl f s) = g s := by
  induction l generalizing s with
  | nil => rfl
  | cons a rest ih => rw [List.foldl_cons, ih, hf]

lemma foldl_inv {α : Type} (f : Sim → α → Sim) (P : Sim → Prop)
    (hf : ∀ s a, P s → P (f s a)) (l : List α) (s : Sim) (hs : P s) :
    P (l.foldl f s) := by
  induction l generalizing s with
  | nil => exact hs
  | cons a rest ih => exact ih _ (hf s a hs)

/-- `updateRequest` never touches the clock, metrics, configuration,
autoscaler target, speed/pause flags, id counters or round-robin cursor. -/
lemma updateRequestAt_frame (s : Sim) (i : ℕ) :
    (updateRequestAt s i).tick = s.tick ∧
    (updateRequestAt s i).metrics = s.metrics ∧
    (updateRequestAt s i).config = s.config ∧
    (updateRequestAt s i).targetReplicas = s.targetReplicas ∧
    (updateRequestAt s i).speed = s.speed ∧
    (updateRequestAt s i).paused = s.paused ∧
    (updateRequestAt s i).nextId = s.nextId ∧
    (updateRequestAt s i).nextReplicaId = s.nextReplicaId ∧
    (updateRequestAt s i).roundRobinIndex = s.roundRobinIndex := by
  simp only [updateRequestAt]
  (repeat' split) <;> exact ⟨rfl, rfl, rfl, rfl, rfl, rfl, rfl, rfl, rfl⟩

/-- `updateRequest` either leaves the activity timer alone or stamps it to
the current tick (admission into the queue; processing phase completed). -/
lemma updateRequestAt_lastActivity (s : Sim) (i : ℕ) :
    (updateRequestAt s i).lastActivityTick = s.lastActivityTick ∨
    (updateRequestAt s i).lastActivityTick = s.tick := by
  simp only [updateRequestAt]
  (repeat' split) <;> first | exact Or.inl rfl | exact Or.inr rfl

lemma updateAllRequests_frame (s : Sim) :
    (updateAllRequests s).tick = s.tick ∧
    (updateAllRequests s).metrics = s.metrics ∧
    (updateAllRequests s).config = s.config ∧
    (updateAllRequests s).targetReplicas = s.targetReplicas ∧
    (updateAllRequests s).speed = s.speed ∧
    (updateAllRequests s).paused = s.paused ∧
    (updateAllRequests s).nextId = s.nextId ∧
    (updateAllRequests s).nextReplicaId = s.nextReplicaId ∧
    (updateAllRequests s).roundRobinIndex = s.roundRobinIndex :=
  ⟨foldl_preserve _ _ (fun s i => (updateRequestAt_frame s i).1) _ s,
   foldl_preserve _ _ (fun s i => (updateRequestAt_frame s i).2.1) _ s,
   foldl_preserve _ _ (fun s i => (updateRequestAt_frame s i).2.2.1) _ s,
   foldl_preserve _ _ (fun s i => (updateRequestAt_frame s i).2.2.2.1) _ s,
   foldl_preserve _ _ (fun s i => (updateRequestAt_frame s i).2.2.2.2.1) _ s,
   foldl_preserve _ _ (fun s i => (updateRequestAt_frame s i).2.2.2.2.2.1) _ s,
   foldl_preserve _ _ (fun s i => (updateRequestAt_frame s i).2.2.2.2.2.2.1) _ s,
   foldl_preserve _ _ (fun s i => (updateRequestAt_frame s i).2.2.2.2.2.2.2.1) _ s,
   foldl_preserve _ _ (fun s i => (updateRequestAt_frame s i).2.2.2.2.2.2.2.2) _ s⟩

lemma updateAllRequests_lastActivity (s : Sim) :
    (updateAllRequests s).lastActivityTick = s.lastActivityTick ∨
    (updateAllRequests s).lastActivityTick = s.tick := by
  have h := foldl_inv updateRequestAt
    (fun t => t.tick = s.tick ∧
      (t.lastActivityTick = s.lastActivityTick ∨ t.lastActivityTick = s.tick))
    (fun t i ⟨h1, h2⟩ => ⟨(updateRequestAt_frame t i).1.trans h1,
      (updateRequestAt_lastActivity t i).elim (fun e => e ▸ h2)
        (fun e => Or.inr (e.trans h1))⟩)
    (List.range s.requests.length) s ⟨rfl, Or.inl rfl⟩
  exact h.2

lemma scaleUpLoop_frame (f : ℕ) : ∀ (s : Sim) (a : ℕ),
    (scaleUpLoop f s a).1.tick = s.tick ∧
    (scaleUpLoop f s a).1.requests = s.requests ∧
    (scaleUpLoop f s a).1.metrics = s.metrics ∧
    (scaleUpLoop f s a).1.config = s.config ∧
    (scaleUpLoop f s a).1.targetReplicas = s.targetReplicas ∧
    (scaleUpLoop f s a).1.speed = s.speed ∧
    (scaleUpLoop f s a).1.paused = s.paused ∧
    (scaleUpLoop f s a).1.nextId = s.nextId ∧
    (scaleUpLoop f s a).1.lastActivityTick = s.lastActivityTick ∧
    (scaleUpLoop f s a).1.roundRobinIndex = s.roundRobinIndex := by
  induction f with
  | zero =>
    exact fun s a => ⟨rfl, rfl, rfl, rfl, rfl, rfl, rfl, rfl, rfl, rfl⟩
  | succ f ih =>
    intro s a
    simp only [scaleUpLoop]
    (repeat' split) <;>
      first
        | exact ⟨rfl, rfl, rfl, rfl, rfl, rfl, rfl, rfl, rfl, rfl⟩
        | exact ih _ _

lemma scaleDownLoop_frame (f : ℕ) : ∀ (s : Sim) (a : ℕ),
    (scaleDownLoop f s a).tick = s.tick ∧
    (scaleDownLoop f s a).requests = s.requests ∧
    (scaleDownLoop f s a).metrics = s.metrics ∧
    (scaleDownLoop f s a).config = s.config ∧
    (scaleDownLoop f s a).targetReplicas = s.targetReplicas ∧
    (scaleDownLoop f s a).speed = s.speed ∧
    (scaleDownLoop f s a).paused = s.paused ∧
    (scaleDownLoop f s a).nextId = s.nextId ∧
    (scaleDownLoop f s a).nextReplicaId = s.nextReplicaId ∧
    (scaleDownLoop f s a).lastActivityTick = s.lastActivityTick ∧
    (scaleDownLoop f s a).roundRobinIndex = s.roundRobinIndex := by
  induction f with
  | zero =>
    exact fun s a => ⟨rfl, rfl, rfl, rfl, rfl, rfl, rfl, rfl, rfl, rfl, rfl⟩
  | succ f ih =>
    intro s a
    simp only [scaleDownLoop]
    (repeat' split) <;>
      first
        | exact ⟨rfl, rfl, rfl, rfl, rfl, rfl, rfl, rfl, rfl, rfl, rfl⟩
        | exact ih _ _

lemma reconcileReplicas_frame (s : Sim) :
    (reconcileReplicas s).tick = s.tick ∧
    (reconcileReplicas s).requests = s.requests ∧
    (reconcileReplicas s).metrics = s.metrics ∧
    (reconcileReplicas s).config = s.config ∧
    (reconcileReplicas s).targetReplicas = s.targetReplicas ∧
    (reconcileReplicas s).speed = s.speed ∧
    (reconcileReplicas s).paused = s.paused ∧
    (reconcileReplicas s).nextId = s.nextId ∧
    (reconcileReplicas s).lastActivityTick = s.lastActivityTick ∧
    (reconcileReplicas s).roundRobinIndex = s.roundRobinIndex := by
  unfold reconcileReplicas
  have hu := scaleUpLoop_frame s.targetReplicas s
    ((s.replicas.filter (fun p => p.state != .stopped)).length)
  have hd := scaleDownLoop_frame
    (scaleUpLoop s.targetReplicas s
      ((s.replicas.filter (fun p => p.state != .stopped)).length)).1.replicas.length
    (scaleUpLoop s.targetReplicas s
      ((s.replicas.filter (fun p => p.state != .stopped)).length)).1
    (scaleUpLoop s.targetReplicas s
      ((s.replicas.filter (fun p => p.state != .stopped)).length)).2
  refine ⟨?_, ?_, ?_, ?_, ?_, ?_, ?_, ?_, ?_, ?_⟩ <;>
    first
      | exact hd.1.trans hu.1
      | exact hd.2.1.trans hu.2.1
      | exact hd.2.2.1.trans hu.2.2.1
      | exact hd.2.2.2.1.trans hu.2.2.2.1
      | exact hd.2.2.2.2.1.trans hu.2.2.2.2.1
      | exact hd.2.2.2.2.2.1.trans hu.2.2.2.2.2.1
      | exact hd.2.2.2.2.2.2.1.trans hu.2.2.2.2.2.2.1
      | exact hd.2.2.2.2.2.2.2.1.trans hu.2.2.2.2.2.2.2.1
      | exact hd.2.2.2.2.2.2.2.2.2.1.trans hu.2.2.2.2.2.2.2.2.1
      | exact hd.2.2.2.2.2.2.2.2.2.2.trans hu.2.2.2.2.2.2.2.2.2

lemma setTargetReplicas_frame (s : Sim) (n : ℤ) :
    (setTargetReplicas s n).tick = s.tick ∧
    (setTargetReplicas s n).requests = s.requests ∧
    (setTargetReplicas s n).replicas = s.replicas ∧
    (setTargetReplicas s n).metrics = s.metrics ∧
    (setTargetReplicas s n).config = s.config ∧
    (setTargetReplicas s n).speed = s.speed ∧
    (setTargetReplicas s n).paused = s.paused ∧
    (setTargetReplicas s n).nextId = s.nextId ∧
    (setTargetReplicas s n).nextReplicaId = s.nextReplicaId ∧
    (setTargetReplicas s n).lastActivityTick = s.tick ∧
    (setTargetReplicas s n).roundRobinIndex = s.roundRobinIndex :=
  ⟨rfl, rfl, rfl, rfl, rfl, rfl, rfl, rfl, rfl, rfl, rfl⟩

lemma handleAutoscaling_eq (s : Sim) :
    ∃ t, handleAutoscaling s = reconcileReplicas t ∧
      t.tick = s.tick ∧ t.requests = s.requests ∧ t.metrics = s.metrics ∧
      t.config = s.config ∧ t.speed = s.speed ∧ t.paused = s.paused ∧
      t.nextId = s.nextId ∧ t.nextReplicaId = s.nextReplicaId ∧
      t.roundRobinIndex = s.roundRobinIndex ∧
      t.replicas = s.replicas ∧
      (t.lastActivityTick = s.lastActivityTick ∨ t.lastActivityTick = s.tick) := by
  simp only [handleAutoscaling]
  (repeat' split) <;>
    exact ⟨_, rfl, rfl, rfl, rfl, rfl, rfl, rfl, rfl, rfl, rfl, rfl,
      by first | exact Or.inl rfl | exact Or.inr rfl⟩

lemma handleAutoscaling_frame (s : Sim) :
    (handleAutoscaling s).tick = s.tick ∧
    (handleAutoscaling s).requests = s.requests ∧
    (handleAutoscaling s).metrics = s.metrics ∧
    (handleAutoscaling s).config = s.config ∧
    (handleAutoscaling s).speed = s.speed ∧
    (handleAutoscaling s).paused = s.paused ∧
    (handleAutoscaling s).nextId = s.nextId ∧
    (handleAutoscaling s).roundRobinIndex = s.roundRobinIndex := by
  obtain ⟨t, he, h1, h2, h3, h4, h5, h6, h7, h8, h9, hrep, h10⟩ := handleAutoscaling_eq s
  rw [he]
  have hf := reconcileReplicas_frame t
  exact ⟨hf.1.trans h1, hf.2.1.trans h2, hf.2.2.1.trans h3, hf.2.2.2.1.trans h4,
    hf.2.2.2.2.2.1.trans h5, hf.2.2.2.2.2.2.1.trans h6, hf.2.2.2.2.2.2.2.1.trans h7,
    hf.2.2.2.2.2.2.2.2.2.trans h9⟩

lemma handleAutoscaling_lastActivity (s : Sim) :
    (handleAutoscaling s).lastActivityTick = s.lastActivityTick ∨
    (handleAutoscaling s).lastActivityTick = s.tick := by
  obtain ⟨t, he, h1, _, _, _, _, _, _, _, _, _, h10⟩ := handleAutoscaling_eq s
  rw [he]
  have hf := (reconcileReplicas_frame t).2.2.2.2.2.2.2.2.1
  exact h10.imp (fun e => hf.trans e) (fun e => hf.trans e)

lemma assignReady_frame (s : Sim) (a b c d : ℕ) :
    (assignReady s a b c d).tick = s.tick ∧
    (assignReady s a b c d).metrics = s.metrics ∧
    (assignReady s a b c d).config = s.config ∧
    (assignReady s a b c d).targetReplicas = s.targetReplicas ∧
    (assignReady s a b c d).speed = s.speed ∧
    (assignReady s a b c d).paused = s.paused ∧
    (assignReady s a b c d).nextId = s.nextId ∧
    (assignReady s a b c d).nextReplicaId = s.nextReplicaId ∧
    (assignReady s a b c d).lastActivityTick = s.lastActivityTick :=
  ⟨rfl, rfl, rfl, rfl, rfl, rfl, rfl, rfl, rfl⟩

lemma assignLoop_frame (activeIdx : List ℕ) (l : List ℕ) : ∀ (s : Sim),
    (assignLoop activeIdx l s).1.tick = s.tick ∧
    (assignLoop activeIdx l s).1.metrics = s.metrics ∧
    (assignLoop activeIdx l s).1.config = s.config ∧
    (assignLoop activeIdx l s).1.targetReplicas = s.targetReplicas ∧
    (assignLoop activeIdx l s).1.speed = s.speed ∧
    (assignLoop activeIdx l s).1.paused = s.paused ∧
    (assignLoop activeIdx l s).1.nextId = s.nextId ∧
    (assignLoop activeIdx l s).1.nextReplicaId = s.nextReplicaId ∧
    (assignLoop activeIdx l s).1.lastActivityTick = s.lastActivityTick := by
  induction l with
  | nil => exact fun s => ⟨rfl, rfl, rfl, rfl, rfl, rfl, rfl, rfl, rfl⟩
  | cons i rest ih =>
    intro s
    simp only [assignLoop]
    split
    · exact ih _
    · exact ⟨rfl, rfl, rfl, rfl, rfl, rfl, rfl, rfl, rfl⟩

lemma assignStartingLoop_frame (startingIdx : List ℕ) (limit : ℕ) :
    ∀ (k : ℕ) (l : List ℕ) (s : Sim),
    (assignStartingLoop startingIdx limit k l s).tick = s.tick ∧
    (assignStartingLoop startingIdx limit k l s).replicas = s.replicas ∧
    (assignStartingLoop startingIdx limit k l s).metrics = s.metrics ∧
    (assignStartingLoop startingIdx limit k l s).config = s.config ∧
    (assignStartingLoop startingIdx limit k l s).targetReplicas = s.targetReplicas ∧
    (assignStartingLoop startingIdx limit k l s).speed = s.speed ∧
    (assignStartingLoop startingIdx limit k l s).paused = s.paused ∧
    (assignStartingLoop startingIdx limit k l s).nextId = s.nextId ∧
    (assignStartingLoop startingIdx limit k l s).nextReplicaId = s.nextReplicaId ∧
    (assignStartingLoop startingIdx limit k l s).lastActivityTick = s.lastActivityTick ∧
    (assignStartingLoop startingIdx limit k l s).roundRobinIndex = s.roundRobinIndex := by
  intro k l
  induction l generalizing k with
  | nil =>
    exact fun s => ⟨rfl, rfl, rfl, rfl, rfl, rfl, rfl, rfl, rfl, rfl, rfl⟩
  | cons i rest ih =>
    intro s
    simp only [assignStartingLoop]
    split
    · exact ih _ _
    · exact ih _ _

lemma assignToStartingReplicas_frame (s : Sim) (l : List ℕ) :
    (assignToStartingReplicas s l).tick = s.tick ∧
    (assignToStartingReplicas s l).replicas = s.replicas ∧
    (assignToStartingReplicas s l).metrics = s.metrics ∧
    (assignToStartingReplicas s l).config = s.config ∧
    (assignToStartingReplicas s l).targetReplicas = s.targetReplicas ∧
    (assignToStartingReplicas s l).speed = s.speed ∧
    (assignToStartingReplicas s l).paused = s.paused ∧
    (assignToStartingReplicas s l).nextId = s.nextId ∧
    (assignToStartingReplicas s l).nextReplicaId = s.nextReplicaId ∧
    (assignToStartingReplicas s l).lastActivityTick = s.lastActivityTick ∧
    (assignToStartingReplicas s l).roundRobinIndex = s.roundRobinIndex := by
  simp only [assignToStartingReplicas]
  split
  · exact ⟨rfl, rfl, rfl, rfl, rfl, rfl, rfl, rfl, rfl, rfl, rfl⟩
  · split
    · exact ⟨rfl, rfl, rfl, rfl, rfl, rfl, rfl, rfl, rfl, rfl, rfl⟩
    · exact assignStartingLoop_frame _ _ _ _ _

lemma tryAssignToReplicas_frame (s : Sim) :
    (tryAssignToReplicas s).tick = s.tick ∧
    (tryAssignToReplicas s).metrics = s.metrics ∧
    (tryAssignToReplicas s).config = s.config ∧
    (tryAssignToReplicas s).targetReplicas = s.targetReplicas ∧
    (tryAssignToReplicas s).speed = s.speed ∧
    (tryAssignToReplicas s).paused = s.paused ∧
    (tryAssignToReplicas s).nextId = s.nextId ∧
    (tryAssignToReplicas s).nextReplicaId = s.nextReplicaId ∧
    (tryAssignToReplicas s).lastActivityTick = s.lastActivityTick := by
  simp only [tryAssignToReplicas]
  split
  · have h := assignToStartingReplicas_frame s (sortedQueuedIdx s.requests)
    exact ⟨h.1, h.2.2.1, h.2.2.2.1, h.2.2.2.2.1, h.2.2.2.2.2.1, h.2.2.2.2.2.2.1,
      h.2.2.2.2.2.2.2.1, h.2.2.2.2.2.2.2.2.1, h.2.2.2.2.2.2.2.2.2.1⟩
  · set s1 := (assignLoop (activeReplicaIdx s.replicas) (sortedQueuedIdx s.requests) s).1
    have h2 := assignToStartingReplicas_frame s1 (queuedIdx s1.requests)
    have h1 := assignLoop_frame (activeReplicaIdx s.replicas) (sortedQueuedIdx s.requests) s
    exact ⟨h2.1.trans h1.1, h2.2.2.1.trans h1.2.1, h2.2.2.2.1.trans h1.2.2.1,
      h2.2.2.2.2.1.trans h1.2.2.2.1, h2.2.2.2.2.2.1.trans h1.2.2.2.2.1,
      h2.2.2.2.2.2.2.1.trans h1.2.2.2.2.2.1, h2.2.2.2.2.2.2.2.1.trans h1.2.2.2.2.2.2.1,
      h2.2.2.2.2.2.2.2.2.1.trans h1.2.2.2.2.2.2.2.1,
      h2.2.2.2.2.2.2.2.2.2.1.trans h1.2.2.2.2.2.2.2.2⟩

lemma updateMetrics_frame (s : Sim) :
    (updateMetrics s).tick = s.tick ∧
    (updateMetrics s).requests = s.requests ∧
    (updateMetrics s).replicas = s.replicas ∧
    (updateMetrics s).config = s.config ∧
    (updateMetrics s).targetReplicas = s.targetReplicas ∧
    (updateMetrics s).speed = s.speed ∧
    (updateMetrics s).paused = s.paused ∧
    (updateMetrics s).lastActivityTick = s.lastActivityTick ∧
    (updateMetrics s).metrics.completed = s.metrics.completed ∧
    (updateMetrics s).metrics.failed = s.metrics.failed ∧
    (updateMetrics s).metrics.expired = s.metrics.expired :=
  ⟨rfl, rfl, rfl, rfl, rfl, rfl, rfl, rfl, rfl, rfl, rfl⟩


/-- Decomposition of an unpaused `Advance` step: the request-update phase
produces `u`; the replica-timer map and the pruning filter are applied to
`u`, and the tail phases follow.  The bookkeeping fields of `u` relate to
`s` as listed. -/
lemma step_decomp (s : Sim) (d : ℚ) (hp : s.paused = false) :
    ∃ u : Sim, s.step d = updateMetrics (tryAssignToReplicas (handleAutoscaling
        { u with
          replicas := u.replicas.map (updateReplica u.tick u.config.coldStartTimeMs),
          requests := u.requests.filter (fun r =>
            r.state != .exiting || decide (mkRat 1 100 < r.alpha)) })) ∧
      u.tick = qadd s.tick (qmul d s.speed) ∧
      u.metrics = s.metrics ∧
      u.config = s.config ∧
      u.targetReplicas = s.targetReplicas ∧
      u.speed = s.speed ∧
      u.paused = s.paused ∧
      u.nextId = s.nextId ∧
      u.nextReplicaId = s.nextReplicaId ∧
      u.roundRobinIndex = s.roundRobinIndex ∧
      (u.lastActivityTick = s.lastActivityTick ∨ u.lastActivityTick = u.tick) := by
  refine ⟨updateAllRequests { s with tick := qadd s.tick (qmul d s.speed) },
    ?_, ?_, ?_, ?_, ?_, ?_, ?_, ?_, ?_, ?_, ?_⟩
  · unfold Sim.step
    rw [if_neg (by simp [hp])]
  · exact (updateAllRequests_frame _).1
  · exact (updateAllRequests_frame _).2.1
  · exact (updateAllRequests_frame _).2.2.1
  · exact (updateAllRequests_frame _).2.2.2.1
  · exact (updateAllRequests_frame _).2.2.2.2.1
  · exact (updateAllRequests_frame _).2.2.2.2.2.1
  · exact (updateAllRequests_frame _).2.2.2.2.2.2.1
  · exact (updateAllRequests_frame _).2.2.2.2.2.2.2.1
  · exact (updateAllRequests_frame _).2.2.2.2.2.2.2.2
  · exact (updateAllRequests_lastActivity _).imp (fun e => e)
      (fun e => e.trans (updateAllRequests_frame _).1.symm)

/-- What `updateMetrics` guarantees about its result: the four derived
fields are the counts over the result collections, the three counters pass
through. -/
lemma updateMetrics_spec (t : Sim) :
    (updateMetrics t).metrics.queued = ((updateMetrics t).requests.filter (fun r =>
        r.state == .queued || r.state == .waiting_capacity ||
          r.state == .waiting_for_model)).length ∧
    (updateMetrics t).metrics.processing =
      ((updateMetrics t).requests.filter (fun r => r.state == .processing)).length ∧
    (updateMetrics t).metrics.replicas =
      ((updateMetrics t).replicas.filter (fun p => p.state != .stopped)).length ∧
    (updateMetrics t).metrics.readyReplicas =
      ((updateMetrics t).replicas.filter (fun p => p.state == .ready)).length :=
  ⟨rfl, rfl, rfl, rfl⟩

/-- C2 (amended): on every unpaused `Advance` the four derived metrics are
recomputed from the final item/worker collections, while the three
cumulative counters pass through the step unchanged; the counters are
mutated only by the dedicated `record*` operations — the other public
operations (here `AddItem` and `SetTargetWorkers`) leave the metrics record
untouched, and `recordCompleted` increments exactly its own counter. -/
theorem C2_metrics_amended (s : Sim) (d : ℚ) (hp : s.paused = false) :
    ((s.step d).metrics.queued = ((s.step d).requests.filter (fun r =>
        r.state == .queued || r.state == .waiting_capacity ||
          r.state == .waiting_for_model)).length ∧
     (s.step d).metrics.processing =
       ((s.step d).requests.filter (fun r => r.state == .processing)).length ∧
     (s.step d).metrics.replicas =
       ((s.step d).replicas.filter (fun p => p.state != .stopped)).length ∧
     (s.step d).metrics.readyReplicas =
       ((s.step d).replicas.filter (fun p => p.state == .ready)).length) ∧
    ((s.step d).metrics.completed = s.metrics.completed ∧
     (s.step d).metrics.failed = s.metrics.failed ∧
     (s.step d).metrics.expired = s.metrics.expired) ∧
    ((Sim.addRequest s 1).metrics = s.metrics ∧
     (setTargetReplicas s 1).metrics = s.metrics ∧
     (Sim.recordCompleted s).metrics.completed = s.metrics.completed + 1 ∧
     (Sim.recordCompleted s).metrics.queued = s.metrics.queued ∧
     (Sim.recordCompleted s).metrics.processing = s.metrics.processing ∧
     (Sim.recordCompleted s).metrics.failed = s.metrics.failed ∧
     (Sim.recordCompleted s).metrics.expired = s.metrics.expired) := by
  obtain ⟨u, he, h1, h2, -⟩ := step_decomp s d hp
  rw [he]
  have hm : (tryAssignToReplicas (handleAutoscaling
      { u with
        replicas := u.replicas.map (updateReplica u.tick u.config.coldStartTimeMs),
        requests := u.requests.filter (fun r =>
          r.state != .exiting || decide (mkRat 1 100 < r.alpha)) })).metrics =
      s.metrics :=
    (tryAssignToReplicas_frame _).2.1.trans
      ((handleAutoscaling_frame _).2.2.1.trans h2)
  refine ⟨updateMetrics_spec _, ⟨?_, ?_, ?_⟩, rfl, rfl, rfl, rfl, rfl, rfl, rfl⟩
  · exact (updateMetrics_frame _).2.2.2.2.2.2.2.2.1.trans
      (congrArg Metrics.completed hm)
  · exact (updateMetrics_frame _).2.2.2.2.2.2.2.2.2.1.trans
      (congrArg Metrics.failed hm)
  · exact (updateMetrics_frame _).2.2.2.2.2.2.2.2.2.2.trans
      (congrArg Metrics.expired hm)

/-- Witness for C2 (amended) at a concrete state. -/
theorem C2_metrics_amended_witness :
    ((Sim.init DEFAULT_CONFIG).step 100).metrics.completed =
      (Sim.init DEFAULT_CONFIG).metrics.completed :=
  (C2_metrics_amended (Sim.init DEFAULT_CONFIG) 100 rfl).2.1.1

/-- C8 (amended): the activity timer is stamped to the current tick by
`AddItem` and by every call of the target setter (the public
`SetTargetWorkers` but equally the autoscaler-internal retargets inside
`Advance`); an `Advance` step either leaves it unchanged or stamps it to the
step's own (new) tick — covering queue admission, processing completion and
all autoscaler retargets, including the idleness-triggered scale-down of the
counterexample; every other public operation leaves it unchanged. -/
theorem C8_lastActivity_amended :
    (∀ (s : Sim) (p : ℕ), (Sim.addRequest s p).lastActivityTick = s.tick) ∧
    (∀ (s : Sim) (n : ℤ), (setTargetReplicas s n).lastActivityTick = s.tick) ∧
    (∀ (s : Sim) (d : ℚ), (s.step d).lastActivityTick = s.lastActivityTick ∨
      (s.step d).lastActivityTick = (s.step d).tick) ∧
    (∀ (s : Sim) (x : ℚ), (Sim.setSpeed s x).lastActivityTick = s.lastActivityTick) ∧
    (∀ (s : Sim) (b : Bool), (Sim.setPaused s b).lastActivityTick = s.lastActivityTick) ∧
    (∀ (s : Sim), (Sim.togglePause s).lastActivityTick = s.lastActivityTick) ∧
    (∀ (s : Sim) (c : SimConfig), (Sim.setConfig s c).lastActivityTick = s.lastActivityTick) ∧
    (∀ (s : Sim), (Sim.recordCompleted s).lastActivityTick = s.lastActivityTick) ∧
    (∀ (s : Sim), (Sim.recordFailed s).lastActivityTick = s.lastActivityTick) ∧
    (∀ (s : Sim), (Sim.recordExpired s).lastActivityTick = s.lastActivityTick) := by
  refine ⟨fun s p => rfl, fun s n => rfl, ?_, fun s x => rfl, fun s b => rfl,
    fun s => rfl, fun s c => rfl, fun s => rfl, fun s => rfl, fun s => rfl⟩
  intro s d
  cases hb : s.paused with
  | true =>
    left
    unfold Sim.step
    rw [if_pos (by simp [hb])]
  | false =>
    obtain ⟨u, he, h1, _, _, _, _, _, _, _, _, hla⟩ := step_decomp s d hb
    rw [he]
    generalize hT : ({ u with
      replicas := u.replicas.map (updateReplica u.tick u.config.coldStartTimeMs),
      requests := u.requests.filter (fun r =>
        r.state != .exiting || decide (mkRat 1 100 < r.alpha)) } : Sim) = T
    have hTla : T.lastActivityTick = u.lastActivityTick := by rw [← hT]
    have hTtk : T.tick = u.tick := by rw [← hT]
    have hm : (updateMetrics (tryAssignToReplicas (handleAutoscaling T))).lastActivityTick =
        (handleAutoscaling T).lastActivityTick :=
      (updateMetrics_frame _).2.2.2.2.2.2.2.1.trans
        (tryAssignToReplicas_frame _).2.2.2.2.2.2.2.2
    have htk : (updateMetrics (tryAssignToReplicas (handleAutoscaling T))).tick = T.tick :=
      (updateMetrics_frame _).1.trans
        ((tryAssignToReplicas_frame _).1.trans (handleAutoscaling_frame _).1)
    cases handleAutoscaling_lastActivity T with
    | inl h =>
      cases hla with
      | inl h0 => exact Or.inl ((hm.trans h).trans (hTla.trans h0))
      | inr h0 =>
        exact Or.inr (((hm.trans h).trans (hTla.trans h0)).trans
          (htk.trans hTtk).symm)
    | inr h => exact Or.inr ((hm.trans h).trans htk.symm)


/-! ## Reachability through the public operations -/

/-- States reachable from a fresh engine by public operations under a fixed
configuration (`setConfig` excluded; `addBurst` is a staggered sequence of
`addRequest` calls and is subsumed by the `addRequest` rule). -/
inductive Reach (cfg : SimConfig) : Sim → Prop where
  | init : Reach cfg (Sim.init cfg)
  | step (s : Sim) (d : ℚ) : Reach cfg s → Reach cfg (s.step d)
  | addRequest (s : Sim) (p : ℕ) (hp : p ≤ 2) : Reach cfg s →
      Reach cfg (s.addRequest p)
  | setTarget (s : Sim) (n : ℤ) : Reach cfg s → Reach cfg (setTargetReplicas s n)
  | setSpeed (s : Sim) (x : ℚ) : Reach cfg s → Reach cfg (s.setSpeed x)
  | setPaused (s : Sim) (b : Bool) : Reach cfg s → Reach cfg (s.setPaused b)
  | togglePause (s : Sim) : Reach cfg s → Reach cfg s.togglePause
  | reset (s : Sim) : Reach cfg s → Reach cfg s.reset
  | recordCompleted (s : Sim) : Reach cfg s → Reach cfg s.recordCompleted
  | recordFailed (s : Sim) : Reach cfg s → Reach cfg s.recordFailed
  | recordExpired (s : Sim) : Reach cfg s → Reach cfg s.recordExpired

/-- States reachable by any sequence of public operations, from any initial
configuration, `setConfig` included. -/
inductive ReachAny : Sim → Prop where
  | init (cfg : SimConfig) : ReachAny (Sim.init cfg)
  | step (s : Sim) (d : ℚ) : ReachAny s → ReachAny (s.step d)
  | addRequest (s : Sim) (p : ℕ) (hp : p ≤ 2) : ReachAny s →
      ReachAny (s.addRequest p)
  | setTarget (s : Sim) (n : ℤ) : ReachAny s → ReachAny (setTargetReplicas s n)
  | setSpeed (s : Sim) (x : ℚ) : ReachAny s → ReachAny (s.setSpeed x)
  | setPaused (s : Sim) (b : Bool) : ReachAny s → ReachAny (s.setPaused b)
  | togglePause (s : Sim) : ReachAny s → ReachAny s.togglePause
  | reset (s : Sim) : ReachAny s → ReachAny s.reset
  | setConfig (s : Sim) (c : SimConfig) : ReachAny s → ReachAny (s.setConfig c)
  | recordCompleted (s : Sim) : ReachAny s → ReachAny s.recordCompleted
  | recordFailed (s : Sim) : ReachAny s → ReachAny s.recordFailed
  | recordExpired (s : Sim) : ReachAny s → ReachAny s.recordExpired

/-- Phase-wise invariant transport through one `Advance` step. -/
lemma step_inv (P : Sim → Prop)
    (htick : ∀ (s : Sim) (d : ℚ), P s →
      P { s with tick := qadd s.tick (qmul d s.speed) })
    (hur : ∀ (s : Sim) (i : ℕ), P s → P (updateRequestAt s i))
    (hmap : ∀ s : Sim, P s → P { s with
      replicas := s.replicas.map (updateReplica s.tick s.config.coldStartTimeMs) })
    (hfil : ∀ s : Sim, P s → P { s with
      requests := s.requests.filter (fun r =>
        r.state != .exiting || decide (mkRat 1 100 < r.alpha)) })
    (hauto : ∀ s : Sim, P s → P (handleAutoscaling s))
    (htry : ∀ s : Sim, P s → P (tryAssignToReplicas s))
    (hupd : ∀ s : Sim, P s → P (updateMetrics s))
    (s : Sim) (d : ℚ) (hs : P s) : P (s.step d) := by
  have hall : ∀ t : Sim, P t → P (updateAllRequests t) :=
    fun t ht => foldl_inv updateRequestAt P hur (List.range t.requests.length) t ht
  unfold Sim.step
  split
  · exact hs
  · exact hupd _ (htry _ (hauto _ (hfil _ (hmap _ (hall _ (htick s d hs))))))

/-- Induction principle over `Reach`. -/
lemma reach_inv (cfg : SimConfig) (P : Sim → Prop)
    (hinit : P (Sim.init cfg))
    (hstep : ∀ (s : Sim) (d : ℚ), P s → P (s.step d))
    (hadd : ∀ (s : Sim) (p : ℕ), p ≤ 2 → P s → P (s.addRequest p))
    (hst : ∀ (s : Sim) (n : ℤ), P s → P (setTargetReplicas s n))
    (hss : ∀ (s : Sim) (x : ℚ), P s → P (s.setSpeed x))
    (hsp : ∀ (s : Sim) (b : Bool), P s → P (s.setPaused b))
    (htp : ∀ s : Sim, P s → P s.togglePause)
    (hrs : ∀ s : Sim, P s → P s.reset)
    (hrc : ∀ s : Sim, P s → P s.recordCompleted)
    (hrf : ∀ s : Sim, P s → P s.recordFailed)
    (hre : ∀ s : Sim, P s → P s.recordExpired) :
    ∀ s : Sim, Reach cfg s → P s := by
  intro s hs
  induction hs with
  | init => exact hinit
  | step s d _ ih => exact hstep s d ih
  | addRequest s p hp _ ih => exact hadd s p hp ih
  | setTarget s n _ ih => exact hst s n ih
  | setSpeed s x _ ih => exact hss s x ih
  | setPaused s b _ ih => exact hsp s b ih
  | togglePause s _ ih => exact htp s ih
  | reset s _ ih => exact hrs s ih
  | recordCompleted s _ ih => exact hrc s ih
  | recordFailed s _ ih => exact hrf s ih
  | recordExpired s _ ih => exact hre s ih

/-- The configuration is constant along `Reach` (no `setConfig`). -/
lemma reach_config (cfg : SimConfig) :
    ∀ s : Sim, Reach cfg s → s.config = cfg := by
  refine reach_inv cfg (fun s => s.config = cfg) ?_ ?_ ?_ ?_ ?_ ?_ ?_ ?_ ?_ ?_ ?_
  · unfold Sim.init
    split <;> rfl
  · intro s d h
    refine Eq.trans ?_ h
    exact step_inv (fun t => t.config = s.config)
      (fun t d ht => ht) (fun t i ht => (updateRequestAt_frame t i).2.2.1.trans ht)
      (fun t ht => ht) (fun t ht => ht)
      (fun t ht => (handleAutoscaling_frame t).2.2.2.1.trans ht)
      (fun t ht => (tryAssignToReplicas_frame t).2.2.1.trans ht)
      (fun t ht => (updateMetrics_frame t).2.2.2.1.trans ht) s d rfl
  · intro s p _ h
    exact h
  · intro s n h
    exact h
  · intro s x h
    exact h
  · intro s b h
    exact h
  · intro s h
    exact h
  · intro s h
    simp only [Sim.reset]
    split <;> exact h
  · intro s h
    exact h
  · intro s h
    exact h
  · intro s h
    exact h


/-! ## C9: pool and identity bounds -/

lemma modifyFirst_length (pr : Replica → Bool) (f : Replica → Replica) :
    ∀ ps : List Replica, (modifyFirst pr f ps).length = ps.length := by
  intro ps
  induction ps with
  | nil => rfl
  | cons p rest ih =>
    simp only [modifyFirst]
    split
    · rfl
    · simp [ih]

lemma modifyIdx_length {α : Type} (l : List α) (i : ℕ) (f : α → α) :
    (modifyIdx l i f).length = l.length := by
  unfold modifyIdx
  split
  · exact List.length_set l i _
  · rfl

lemma claimSlot_length (ps : List Replica) (rid : ℕ) (x : String) (t : ℕ) :
    (claimSlot ps rid x t).length = ps.length :=
  modifyFirst_length _ _ ps

lemma releaseClaim_length (ps : List Replica) (rid : ℕ) (x : String) :
    (releaseClaim ps rid x).length = ps.length :=
  modifyFirst_length _ _ ps

lemma finishOnReplica_length (ps : List Replica) (x : String) (t : ℕ) :
    (finishOnReplica ps x t).length = ps.length :=
  modifyFirst_length _ _ ps

lemma repositionQueue_replicas (s : Sim) :
    (repositionQueue s).replicas = s.replicas := rfl

lemma updateRequestAt_replicas_length (s : Sim) (i : ℕ) :
    (updateRequestAt s i).replicas.length = s.replicas.length := by
  simp only [updateRequestAt]
  (repeat' split) <;>
    simp [claimSlot_length, releaseClaim_length, finishOnReplica_length,
      repositionQueue_replicas]

lemma scaleUpLoop_bound (f : ℕ) : ∀ (s : Sim) (a : ℕ),
    s.replicas.length ≤ s.config.maxReplicas →
    (scaleUpLoop f s a).1.replicas.length ≤ s.config.maxReplicas := by
  induction f with
  | zero => exact fun s a h => h
  | succ f ih =>
    intro s a h
    simp only [scaleUpLoop]
    split
    · split
      · rename_i j heq
        refine ih _ (a + 1) ?_
        show (modifyIdx s.replicas j _).length ≤ s.config.maxReplicas
        rw [modifyIdx_length]
        exact h
      · split
        · rename_i hcreate
          refine ih _ (a + 1) ?_
          show (s.replicas ++ [_]).length ≤ s.config.maxReplicas
          rw [List.length_append]
          simpa using hcreate
        · exact h
    · exact h

lemma scaleDownLoop_length (f : ℕ) : ∀ (s : Sim) (a : ℕ),
    (scaleDownLoop f s a).replicas.length = s.replicas.length := by
  induction f with
  | zero => exact fun s a => rfl
  | succ f ih =>
    intro s a
    simp only [scaleDownLoop]
    (repeat' split)
    · exact (ih _ _).trans (by simp [modifyIdx_length])
    · rfl
    · rfl

lemma reconcileReplicas_bound (s : Sim)
    (h : s.replicas.length ≤ s.config.maxReplicas) :
    (reconcileReplicas s).replicas.length ≤ s.config.maxReplicas := by
  unfold reconcileReplicas
  rw [scaleDownLoop_length]
  exact scaleUpLoop_bound s.targetReplicas s _ h

lemma assignLoop_replicas_length (activeIdx : List ℕ) (l : List ℕ) :
    ∀ s : Sim, (assignLoop activeIdx l s).1.replicas.length = s.replicas.length := by
  induction l with
  | nil => exact fun s => rfl
  | cons i rest ih =>
    intro s
    simp only [assignLoop]
    split
    · exact (ih _).trans (by
        simp [assignReady, claimSlot_length, repositionQueue_replicas])
    · rfl

lemma tryAssignToReplicas_replicas_length (s : Sim) :
    (tryAssignToReplicas s).replicas.length = s.replicas.length := by
  simp only [tryAssignToReplicas]
  split
  · rw [(assignToStartingReplicas_frame _ _).2.1]
  · rw [(assignToStartingReplicas_frame _ _).2.1, assignLoop_replicas_length]

/-- C9: the number of worker identities ever created never exceeds
`maxWorkers` (identities are never deleted, so the list length counts them),
and a fortiori the number of non-stopped workers is bounded by `maxWorkers`;
reconciliation restarts stopped workers before creating new identities (see
`scaleUpLoop`), which is what keeps identities from growing while the active
count stays bounded. -/
theorem C9_pool_bound (cfg : SimConfig) (s : Sim) (hs : Reach cfg s) :
    (s.replicas.filter (fun p => p.state != .stopped)).length ≤ cfg.maxReplicas ∧
    s.replicas.length ≤ cfg.maxReplicas := by
  have hcfg := reach_config cfg s hs
  have hlen : s.replicas.length ≤ s.config.maxReplicas := by
    refine reach_inv cfg (fun t => t.replicas.length ≤ t.config.maxReplicas)
      ?_ ?_ ?_ ?_ ?_ ?_ ?_ ?_ ?_ ?_ ?_ s hs
    · unfold Sim.init
      split <;> simp [setTargetReplicas]
    · intro t d h
      refine step_inv (fun v => v.replicas.length ≤ v.config.maxReplicas)
        (fun v d hv => hv)
        (fun v i hv => by
          show (updateRequestAt v i).replicas.length ≤
            (updateRequestAt v i).config.maxReplicas
          rw [updateRequestAt_replicas_length, (updateRequestAt_frame v i).2.2.1]
          exact hv)
        (fun v hv => by simpa using hv)
        (fun v hv => hv)
        (fun v hv => by
          show (handleAutoscaling v).replicas.length ≤
            (handleAutoscaling v).config.maxReplicas
          obtain ⟨w, he, hw⟩ := handleAutoscaling_eq v
          rw [he, (reconcileReplicas_frame w).2.2.2.1]
          exact reconcileReplicas_bound w (by
            rw [hw.2.2.2.2.2.2.2.2.2.1, hw.2.2.2.1]
            exact hv))
        (fun v hv => by
          show (tryAssignToReplicas v).replicas.length ≤
            (tryAssignToReplicas v).config.maxReplicas
          rw [tryAssignToReplicas_replicas_length, (tryAssignToReplicas_frame v).2.2.1]
          exact hv)
        (fun v hv => by
          show (updateMetrics v).replicas.length ≤ (updateMetrics v).config.maxReplicas
          rw [(updateMetrics_frame v).2.2.1, (updateMetrics_frame v).2.2.2.1]
          exact hv)
        t d h
    · intro t p _ h
      exact h
    · intro t n h
      exact h
    · intro t x h
      exact h
    · intro t b h
      exact h
    · intro t h
      exact h
    · intro t h
      simp only [Sim.reset]
      split <;> simp [setTargetReplicas]
    · intro t h
      exact h
    · intro t h
      exact h
    · intro t h
      exact h
  rw [hcfg] at hlen
  exact ⟨Nat.le_trans (List.length_filter_le _ _) hlen, hlen⟩

/-- Reachability of the demonstration runs. -/
lemma reach_stepFold (cfg : SimConfig) (s : Sim) (hs : Reach cfg s) (d : ℚ) :
    ∀ n : ℕ, Reach cfg ((List.range n).foldl (fun s _ => s.step d) s) := by
  intro n
  induction n with
  | zero => exact hs
  | succ n ih =>
    rw [List.range_succ, List.foldl_append]
    exact Reach.step _ d ih

lemma reach_capacityRun (n : ℕ) : Reach capacityCfg (capacityRun n) :=
  reach_stepFold capacityCfg _
    (Reach.addRequest _ 1 (by decide)
      (Reach.addRequest _ 1 (by decide) Reach.init)) 100 n

/-- Witness for C9 at a concrete reachable state. -/
theorem C9_pool_bound_witness :
    ((capacityRun 33).replicas.filter (fun p => p.state != .stopped)).length ≤
      capacityCfg.maxReplicas ∧
    (capacityRun 33).replicas.length ≤ capacityCfg.maxReplicas :=
  C9_pool_bound capacityCfg (capacityRun 33) (reach_capacityRun 33)


/-! ## C7: `failed` and `rate_limited` are never produced -/

/-- A request state that no transition rule ever produces is absent. -/
def StOK (r : Request) : Prop :=
  r.state ≠ RequestState.failed ∧ r.state ≠ RequestState.rate_limited

/-- No request of the engine is `failed` or `rate_limited`. -/
def AllOK (s : Sim) : Prop := ∀ r ∈ s.requests, StOK r

lemma stOK_set {rs : List Request} (hs : ∀ r ∈ rs, StOK r) {a : Request}
    (ha : StOK a) (i : ℕ) : ∀ r ∈ rs.set i a, StOK r := by
  intro r hr
  rcases List.mem_or_eq_of_mem_set hr with h | h
  · exact hs r h
  · exact h ▸ ha

lemma stOK_modifyIdx {rs : List Request} (hs : ∀ r ∈ rs, StOK r)
    {f : Request → Request} (hf : ∀ r, StOK r → StOK (f r)) (i : ℕ) :
    ∀ r ∈ modifyIdx rs i f, StOK r := by
  unfold modifyIdx
  split
  · rename_i a ha
    exact stOK_set hs (hf a (hs a (List.get?_mem ha))) i
  · exact hs

lemma stOK_applySlots {rs : List Request} (hs : ∀ r ∈ rs, StOK r) (sp : ℚ) :
    ∀ l : List (ℕ × ℕ), ∀ r ∈ applySlots rs sp l, StOK r := by
  intro l
  induction l generalizing rs with
  | nil => exact hs
  | cons ki rest ih =>
    obtain ⟨k, j⟩ := ki
    refine ih (stOK_modifyIdx hs ?_ j)
    exact fun r h => h

lemma stOK_repositionQueue {s : Sim} (hs : AllOK s) : AllOK (repositionQueue s) :=
  stOK_applySlots hs _ _

lemma updateRequestAt_AllOK (s : Sim) (i : ℕ) (hs : AllOK s) :
    AllOK (updateRequestAt s i) := by
  simp only [AllOK] at *
  simp only [updateRequestAt]
  cases hg : s.requests.get? i with
  | none => exact hs
  | some r0 =>
    have hok0 : StOK r0 := hs r0 (List.get?_mem hg)
    have hlerp : StOK (lerpReq r0) := hok0
    simp only []
    cases hst : (lerpReq r0).state <;> simp only [] <;> (repeat' split) <;>
      first
        | exact absurd hst hok0.1
        | exact absurd hst hok0.2
        | exact stOK_set hs hlerp i
        | exact stOK_set (stOK_set hs hlerp i) ⟨by simp, by simp⟩ i
        | exact stOK_set (stOK_set (stOK_set hs hlerp i) ⟨by simp, by simp⟩ i)
            ⟨by simp, by simp⟩ i
        | (refine stOK_repositionQueue ?_
           exact stOK_set (stOK_set hs hlerp i) ⟨by simp, by simp⟩ i)

lemma assignReady_AllOK (s : Sim) (a b c d : ℕ) (hs : AllOK s) :
    AllOK (assignReady s a b c d) := by
  simp only [assignReady]
  refine stOK_repositionQueue ?_
  exact stOK_modifyIdx hs (fun r _ => ⟨by simp, by simp⟩) a

lemma assignLoop_AllOK (activeIdx : List ℕ) (l : List ℕ) : ∀ (s : Sim),
    AllOK s → AllOK (assignLoop activeIdx l s).1 := by
  induction l with
  | nil => exact fun s hs => hs
  | cons i rest ih =>
    intro s hs
    simp only [assignLoop]
    split
    · exact ih _ (assignReady_AllOK s i _ _ _ hs)
    · exact hs

lemma assignStartingLoop_AllOK (startingIdx : List ℕ) (limit : ℕ) :
    ∀ (k : ℕ) (l : List ℕ) (s : Sim), AllOK s →
      AllOK (assignStartingLoop startingIdx limit k l s) := by
  intro k l
  induction l generalizing k with
  | nil => exact fun s hs => hs
  | cons i rest ih =>
    intro s hs
    simp only [assignStartingLoop]
    refine ih _ _ ?_
    split
    · refine stOK_repositionQueue ?_
      exact stOK_modifyIdx hs (fun r _ => ⟨by simp, by simp⟩) i
    · exact hs

lemma assignToStartingReplicas_AllOK (s : Sim) (l : List ℕ) (hs : AllOK s) :
    AllOK (assignToStartingReplicas s l) := by
  simp only [assignToStartingReplicas]
  split
  · exact hs
  · split
    · exact hs
    · exact assignStartingLoop_AllOK _ _ 0 l s hs

lemma tryAssignToReplicas_AllOK (s : Sim) (hs : AllOK s) :
    AllOK (tryAssignToReplicas s) := by
  simp only [tryAssignToReplicas]
  split
  · exact assignToStartingReplicas_AllOK s _ hs
  · exact assignToStartingReplicas_AllOK _ _ (assignLoop_AllOK _ _ s hs)

lemma handleAutoscaling_AllOK (s : Sim) (hs : AllOK s) :
    AllOK (handleAutoscaling s) := by
  intro r hr
  rw [(handleAutoscaling_frame s).2.1] at hr
  exact hs r hr

lemma step_AllOK (s : Sim) (d : ℚ) (hs : AllOK s) : AllOK (s.step d) := by
  refine step_inv AllOK ?_ updateRequestAt_AllOK ?_ ?_ handleAutoscaling_AllOK
    tryAssignToReplicas_AllOK ?_ s d hs
  · exact fun t e ht => ht
  · exact fun t ht => ht
  · intro t ht r hr
    exact ht r (List.mem_of_mem_filter hr)
  · exact fun t ht => ht

lemma init_requests (cfg : SimConfig) : (Sim.init cfg).requests = [] := by
  simp only [Sim.init]
  split
  · exact (setTargetReplicas_frame _ _).2.1
  · rfl

lemma reset_requests (s : Sim) : (Sim.reset s).requests = [] := by
  simp only [Sim.reset]
  split
  · exact (setTargetReplicas_frame _ _).2.1
  · rfl

/-- Every reachable state, under every configuration history, satisfies
`AllOK`. -/
lemma reachany_AllOK : ∀ s : Sim, ReachAny s → AllOK s := by
  intro s hs
  induction hs with
  | init cfg =>
    intro r hr
    rw [init_requests] at hr
    exact absurd hr (List.not_mem_nil r)
  | step s d _ ih => exact step_AllOK s d ih
  | addRequest s p hp _ ih =>
    intro r hr
    rcases List.mem_append.mp hr with h | h
    · exact ih r h
    · rw [List.mem_singleton.mp h]
      exact ⟨by simp, by simp⟩
  | setTarget s n _ ih =>
    intro r hr
    rw [(setTargetReplicas_frame s n).2.1] at hr
    exact ih r hr
  | setSpeed s x _ ih => exact ih
  | setPaused s b _ ih => exact ih
  | togglePause s _ ih => exact ih
  | reset s _ ih =>
    intro r hr
    rw [reset_requests] at hr
    exact absurd hr (List.not_mem_nil r)
  | setConfig s c _ ih => exact ih
  | recordCompleted s _ ih => exact ih
  | recordFailed s _ ih => exact ih
  | recordExpired s _ ih => exact ih

lemma reachany_stepFold (s : Sim) (hs : ReachAny s) (d : ℚ) :
    ∀ n : ℕ, ReachAny ((List.range n).foldl (fun s _ => s.step d) s) := by
  intro n
  induction n with
  | zero => exact hs
  | succ n ih =>
    rw [List.range_succ, List.foldl_append]
    exact ReachAny.step _ d ih

lemma reachany_coldStartRun (n : ℕ) : ReachAny (coldStartRun n) :=
  reachany_stepFold _
    (ReachAny.addRequest _ 1 (by decide) (ReachAny.init DEFAULT_CONFIG)) 100 n

/-- **C7**: the `failed` and `rate_limited` request states are declared but
no transition of the engine ever produces them: in every state reachable by
any sequence of public operations, no request is `failed` or
`rate_limited`. -/
theorem C7_no_failed (s : Sim) (hs : ReachAny s) :
    ∀ r ∈ s.requests,
      r.state ≠ RequestState.failed ∧ r.state ≠ RequestState.rate_limited :=
  reachany_AllOK s hs

/-- Witness for C7 at a concrete reachable state with a live request. -/
theorem C7_no_failed_witness :
    ((coldStartRun 5).requests.getD 0 default).state ≠ RequestState.failed ∧
    ((coldStartRun 5).requests.getD 0 default).state ≠
      RequestState.rate_limited :=
  C7_no_failed (coldStartRun 5) (reachany_coldStartRun 5)
    ((coldStartRun 5).requests.getD 0 default) (by decide)

/-! ## C5: round-robin fairness of the ready-capacity pass -/

/-- One-step unfolding of the round-robin scan. -/
lemma findSlotAux_succ (s : Sim) (activeIdx : List ℕ) (start o k : ℕ) :
    findSlotAux s activeIdx start o (k + 1) =
      if (s.replicas.getD (activeIdx.getD ((start + o) % activeIdx.length) 0)
            default).currentRequestIds.length < s.config.concurrencyTarget then
        some ((start + o) % activeIdx.length)
      else findSlotAux s activeIdx start (o + 1) k := rfl

/-- One-step unfolding of the dispatch walk when a slot is found. -/
lemma assignLoop_cons_some (activeIdx : List ℕ) (i : ℕ) (rest : List ℕ)
    (s : Sim) (pos : ℕ)
    (hf : findSlotAux s activeIdx s.roundRobinIndex 0 activeIdx.length =
      some pos) :
    assignLoop activeIdx (i :: rest) s =
      ((assignLoop activeIdx rest
          (assignReady s i (activeIdx.getD pos 0) pos activeIdx.length)).1,
       i :: (assignLoop activeIdx rest
          (assignReady s i (activeIdx.getD pos 0) pos activeIdx.length)).2) := by
  simp only [assignLoop, hf]

/-- Scenario 4: a queued item occupying queue slot `i`. -/
def c5req (i : ℕ) : Request :=
  { id := "q-" ++ toString i, state := .queued, priority := 1, createdAt := 0,
    queuedAt := some 0, x := stageXQueue, targetX := stageXQueue, alpha := 1 }

/-- Scenario 4: a ready worker with no claimed items. -/
def c5rep (j : ℕ) : Replica := { id := j, state := .ready }

/-- Scenario 4 state: `concurrencyTarget = 2`, exactly two `ready` workers
with empty claim lists, four simultaneously admitted queued items, and an
arbitrary round-robin cursor `rr`. -/
def c5state (rr : ℕ) : Sim :=
  { tick := 0, requests := [c5req 0, c5req 1, c5req 2, c5req 3],
    replicas := [c5rep 0, c5rep 1], metrics := initialMetrics,
    config := { DEFAULT_CONFIG with concurrencyTarget := 2 },
    targetReplicas := 2, speed := 1, paused := false, nextId := 4,
    nextReplicaId := 2, lastActivityTick := 0, roundRobinIndex := rr }

/-- **C5**: with `concurrencyTarget = 2`, two `ready` workers holding no
items and four simultaneously admitted queued items, one dispatch pass
leaves each worker with exactly 2 claimed items — whatever the current
round-robin cursor; the split is never 4–0 or 3–1. -/
theorem C5_round_robin (rr : ℕ) :
    (tryAssignToReplicas (c5state rr)).replicas.map
      (fun p => p.currentRequestIds.length) = [2, 2] := by
  rcases Nat.mod_two_eq_zero_or_one rr with h | h
  · have hpos : (rr + 0) % List.length ([0, 1] : List ℕ) = 0 := by
      simpa using h
    have hfs : findSlotAux (c5state rr) [0, 1] rr 0
        (List.length ([0, 1] : List ℕ)) = some 0 := by
      rw [show List.length ([0, 1] : List ℕ) = 1 + 1 from rfl,
        findSlotAux_succ, hpos]
      rfl
    rw [show tryAssignToReplicas (c5state rr)
        = assignToStartingReplicas
            (assignLoop [0, 1] [0, 1, 2, 3] (c5state rr)).1
            (queuedIdx (assignLoop [0, 1] [0, 1, 2, 3] (c5state rr)).1.requests)
      from rfl]
    rw [assignLoop_cons_some [0, 1] 0 [1, 2, 3] (c5state rr) 0 hfs]
    rw [show assignReady (c5state rr) 0 ([0, 1].getD 0 0) 0
        (List.length ([0, 1] : List ℕ)) = assignReady (c5state 0) 0 0 0 2
      from rfl]
    decide
  · have hpos : (rr + 0) % List.length ([0, 1] : List ℕ) = 1 := by
      simpa using h
    have hfs : findSlotAux (c5state rr) [0, 1] rr 0
        (List.length ([0, 1] : List ℕ)) = some 1 := by
      rw [show List.length ([0, 1] : List ℕ) = 1 + 1 from rfl,
        findSlotAux_succ, hpos]
      rfl
    rw [show tryAssignToReplicas (c5state rr)
        = assignToStartingReplicas
            (assignLoop [0, 1] [0, 1, 2, 3] (c5state rr)).1
            (queuedIdx (assignLoop [0, 1] [0, 1, 2, 3] (c5state rr)).1.requests)
      from rfl]
    rw [assignLoop_cons_some [0, 1] 0 [1, 2, 3] (c5state rr) 1 hfs]
    rw [show assignReady (c5state rr) 0 ([0, 1].getD 1 0) 1
        (List.length ([0, 1] : List ℕ)) = assignReady (c5state 1) 0 1 1 2
      from rfl]
    decide

/-- Witness for C5 at a concrete round-robin cursor. -/
theorem C5_round_robin_witness :
    (tryAssignToReplicas (c5state 3)).replicas.map
      (fun p => p.currentRequestIds.length) = [2, 2] :=
  C5_round_robin 3

/-! ## C6: queue expiry is evaluated every step and wins over dispatch -/

lemma get?_set_other {α : Type} (l : List α) {i j : ℕ} (h : j ≠ i) (x : α) :
    (l.set i x).get? j = l.get? j := List.get?_set_ne x l (Ne.symm h)

lemma get?_set_self {α : Type} (l : List α) (n : ℕ) (x a : α)
    (h : l.get? n = some a) : (l.set n x).get? n = some x := by
  rw [List.get?_set_eq, h]
  rfl

/-- The request facts tracked positionally across a step: identity,
lifecycle state and admission time of the entry at position `j`. -/
def CoreAt (j : ℕ) (idv : String) (st : RequestState) (qa : Option ℚ)
    (rs : List Request) : Prop :=
  ∃ b, rs.get? j = some b ∧ b.id = idv ∧ b.state = st ∧ b.queuedAt = qa

lemma coreAt_set_other {j : ℕ} {idv : String} {st : RequestState}
    {qa : Option ℚ} {rs : List Request} {i : ℕ} (h : j ≠ i) (x : Request)
    (hc : CoreAt j idv st qa rs) : CoreAt j idv st qa (rs.set i x) := by
  obtain ⟨b, hb, h1, h2, h3⟩ := hc
  exact ⟨b, (get?_set_other rs h x).trans hb, h1, h2, h3⟩

/-- `modifyIdx` with a core-preserving mutation preserves every position. -/
lemma coreAt_modifyIdx {j : ℕ} {idv : String} {st : RequestState}
    {qa : Option ℚ} {rs : List Request} (i : ℕ) {f : Request → Request}
    (hf : ∀ r, (f r).id = r.id ∧ (f r).state = r.state ∧
      (f r).queuedAt = r.queuedAt)
    (hc : CoreAt j idv st qa rs) : CoreAt j idv st qa (modifyIdx rs i f) := by
  obtain ⟨b, hb, h1, h2, h3⟩ := hc
  unfold modifyIdx
  cases hm : rs.get? i with
  | none => exact ⟨b, hb, h1, h2, h3⟩
  | some a =>
    by_cases hij : j = i
    · rw [hij] at hb ⊢
      have hab : a = b := Option.some.inj (hm.symm.trans hb)
      subst hab
      exact ⟨f a, get?_set_self rs i (f a) a hm, (hf a).1.trans h1,
        (hf a).2.1.trans h2, (hf a).2.2.trans h3⟩
    · exact ⟨b, (get?_set_other rs hij (f a)).trans hb, h1, h2, h3⟩

/-- `modifyIdx` at a different position preserves any core. -/
lemma coreAt_modifyIdx_other {j : ℕ} {idv : String} {st : RequestState}
    {qa : Option ℚ} {rs : List Request} {i : ℕ} (hne : j ≠ i)
    (f : Request → Request)
    (hc : CoreAt j idv st qa rs) : CoreAt j idv st qa (modifyIdx rs i f) := by
  unfold modifyIdx
  split
  · exact coreAt_set_other hne _ hc
  · exact hc

lemma coreAt_applySlots {j : ℕ} {idv : String} {st : RequestState}
    {qa : Option ℚ} (sp : ℚ) :
    ∀ (l : List (ℕ × ℕ)) (rs : List Request),
      CoreAt j idv st qa rs → CoreAt j idv st qa (applySlots rs sp l) := by
  intro l
  induction l with
  | nil => exact fun rs h => h
  | cons ki rest ih =>
    intro rs hc
    obtain ⟨k, m⟩ := ki
    simp only [applySlots]
    exact ih _ (coreAt_modifyIdx m (fun r => ⟨rfl, rfl, rfl⟩) hc)

lemma coreAt_repositionQueue {j : ℕ} {idv : String} {st : RequestState}
    {qa : Option ℚ} (s : Sim) (hc : CoreAt j idv st qa s.requests) :
    CoreAt j idv st qa (repositionQueue s).requests := by
  simp only [repositionQueue]
  exact coreAt_applySlots _ _ _ hc

/-- `updateRequest` at another position preserves the tracked core. -/
lemma coreAt_updateRequestAt_other {j : ℕ} {idv : String} {st : RequestState}
    {qa : Option ℚ} (s : Sim) (i : ℕ) (hne : j ≠ i)
    (hc : CoreAt j idv st qa s.requests) :
    CoreAt j idv st qa (updateRequestAt s i).requests := by
  simp only [updateRequestAt]
  cases hg : s.requests.get? i with
  | none => exact hc
  | some r0 =>
    have h1 : CoreAt j idv st qa (s.requests.set i (lerpReq r0)) :=
      coreAt_set_other hne _ hc
    simp only []
    cases (lerpReq r0).state <;> simp only [] <;> (repeat' split) <;>
      first
        | exact h1
        | exact coreAt_set_other hne _ h1
        | exact coreAt_set_other hne _ (coreAt_set_other hne _ h1)
        | exact coreAt_applySlots _ _ _ (coreAt_set_other hne _ h1)

/-- An overdue queued request expires when its own position is updated. -/
lemma updateRequestAt_expires (s : Sim) (i : ℕ) (r : Request)
    (hr : s.requests.get? i = some r) (hq : r.state = RequestState.queued)
    (hover : s.config.maxTimeInQueueMs < qsub s.tick (r.queuedAt.getD 0)) :
    CoreAt i r.id RequestState.expired r.queuedAt
      (updateRequestAt s i).requests := by
  simp only [updateRequestAt, hr]
  rw [show (lerpReq r).state = RequestState.queued from hq]
  simp only []
  have hover2 : s.config.maxTimeInQueueMs <
      qsub s.tick ((lerpReq r).queuedAt.getD 0) := hover
  rw [if_pos hover2]
  exact ⟨_, get?_set_self _ _ _ _ (get?_set_self s.requests i (lerpReq r) r hr),
    rfl, rfl, rfl⟩

/-- Invariant transport through a fold, with the transported hypothesis
available only for list members. -/
lemma foldl_inv_mem (f : Sim → ℕ → Sim) (P : Sim → Prop) :
    ∀ (l : List ℕ), (∀ t a, a ∈ l → P t → P (f t a)) →
      ∀ s, P s → P (l.foldl f s) := by
  intro l
  induction l with
  | nil => exact fun _ s hs => hs
  | cons a rest ih =>
    intro h s hs
    exact ih (fun t b hb ht => h t b (List.mem_cons_of_mem a hb) ht) _
      (h s a (List.mem_cons_self a rest) hs)

/-- The update pass expires an overdue queued request. -/
lemma updateAllRequests_expires (s : Sim) (i : ℕ) (r : Request)
    (hr : s.requests.get? i = some r) (hq : r.state = RequestState.queued)
    (hover : s.config.maxTimeInQueueMs < qsub s.tick (r.queuedAt.getD 0)) :
    CoreAt i r.id RequestState.expired r.queuedAt
      (updateAllRequests s).requests := by
  have hlen : i < s.requests.length := (List.get?_eq_some.mp hr).1
  have hsplit : s.requests.length =
      Nat.succ i + (s.requests.length - Nat.succ i) := by omega
  unfold updateAllRequests
  rw [hsplit, List.range_add, List.foldl_append, List.range_succ,
    List.foldl_append]
  have hA : CoreAt i r.id RequestState.queued r.queuedAt
        ((List.range i).foldl updateRequestAt s).requests ∧
      ((List.range i).foldl updateRequestAt s).tick = s.tick ∧
      ((List.range i).foldl updateRequestAt s).config = s.config := by
    refine foldl_inv_mem updateRequestAt
      (fun t => CoreAt i r.id RequestState.queued r.queuedAt t.requests ∧
        t.tick = s.tick ∧ t.config = s.config) (List.range i) ?_ s
      ⟨⟨r, hr, rfl, hq, rfl⟩, rfl, rfl⟩
    rintro t a ha ⟨hc, ht, hcf⟩
    have hne : i ≠ a := by
      have := List.mem_range.mp ha
      omega
    exact ⟨coreAt_updateRequestAt_other t a hne hc,
      (updateRequestAt_frame t a).1.trans ht,
      (updateRequestAt_frame t a).2.2.1.trans hcf⟩
  obtain ⟨⟨b, hb, hbid, hbst, hbqa⟩, htk, hcf⟩ := hA
  have hoverb : ((List.range i).foldl updateRequestAt s).config.maxTimeInQueueMs <
      qsub ((List.range i).foldl updateRequestAt s).tick (b.queuedAt.getD 0) := by
    rw [htk, hcf, hbqa]
    exact hover
  have hB := updateRequestAt_expires ((List.range i).foldl updateRequestAt s)
    i b hb hbst hoverb
  have hB' : CoreAt i r.id RequestState.expired r.queuedAt
      (updateRequestAt ((List.range i).foldl updateRequestAt s) i).requests := by
    obtain ⟨c, hc1, hc2, hc3, hc4⟩ := hB
    exact ⟨c, hc1, hc2.trans hbid, hc3, hc4.trans hbqa⟩
  refine foldl_inv_mem updateRequestAt
    (fun t => CoreAt i r.id RequestState.expired r.queuedAt t.requests)
    (List.map (fun x => Nat.succ i + x) (List.range (s.requests.length - Nat.succ i)))
    ?_ _ hB'
  intro t a ha hc
  have hne : i ≠ a := by
    obtain ⟨x, hx, rfl⟩ := List.mem_map.mp ha
    omega
  exact coreAt_updateRequestAt_other t a hne hc

/-- Membership in `stableInsert` comes from the new element or the list. -/
lemma stableInsert_mem (le : ℕ → ℕ → Bool) (i : ℕ) :
    ∀ (l : List ℕ) (j : ℕ), j ∈ stableInsert le i l → j = i ∨ j ∈ l := by
  intro l
  induction l with
  | nil =>
    intro j hj
    simp only [stableInsert] at hj
    exact Or.inl (List.mem_singleton.mp hj)
  | cons a rest ih =>
    intro j hj
    simp only [stableInsert] at hj
    split at hj
    · rcases List.mem_cons.mp hj with h | h
      · exact Or.inl h
      · exact Or.inr h
    · rcases List.mem_cons.mp hj with h | h
      · refine Or.inr ?_
        rw [h]
        exact List.mem_cons_self a rest
      · rcases ih j h with h2 | h2
        · exact Or.inl h2
        · exact Or.inr (List.mem_cons_of_mem a h2)

/-- The stable sort only permutes: membership is preserved. -/
lemma stableSort_mem (le : ℕ → ℕ → Bool) :
    ∀ (l : List ℕ) (j : ℕ), j ∈ stableSort le l → j ∈ l := by
  intro l
  induction l with
  | nil =>
    intro j hj
    simpa [stableSort] using hj
  | cons a rest ih =>
    intro j hj
    simp only [stableSort] at hj
    rcases stableInsert_mem le a _ j hj with h | h
    · rw [h]
      exact List.mem_cons_self a rest
    · exact List.mem_cons_of_mem a (ih j h)

/-- Positions in the queue snapshot hold `queued` requests. -/
lemma queuedIdx_state (rs : List Request) (j : ℕ) (hj : j ∈ queuedIdx rs) :
    (rs.getD j default).state = RequestState.queued := by
  have h := (List.mem_filter.mp hj).2
  simpa using h

lemma not_mem_queuedIdx {rs : List Request} {j : ℕ} {b : Request}
    (hb : rs.get? j = some b) (hst : b.state = RequestState.expired) :
    ∀ k ∈ queuedIdx rs, k ≠ j := by
  intro k hk he
  rw [he] at hk
  have h1 := queuedIdx_state rs j hk
  rw [List.getD_eq_get?, hb] at h1
  simp only [Option.getD_some] at h1
  rw [hst] at h1
  exact RequestState.noConfusion h1

lemma not_mem_sortedQueuedIdx {rs : List Request} {j : ℕ} {b : Request}
    (hb : rs.get? j = some b) (hst : b.state = RequestState.expired) :
    ∀ k ∈ sortedQueuedIdx rs, k ≠ j := by
  intro k hk
  exact not_mem_queuedIdx hb hst k (stableSort_mem _ _ k hk)

/-- A ready-pass assignment at another position preserves an expired core. -/
lemma coreAt_assignReady {j : ℕ} {idv : String} {qa : Option ℚ} (s : Sim)
    (a b2 c d : ℕ) (hne : j ≠ a)
    (hc : CoreAt j idv RequestState.expired qa s.requests) :
    CoreAt j idv RequestState.expired qa (assignReady s a b2 c d).requests := by
  simp only [assignReady]
  refine coreAt_repositionQueue _ ?_
  exact coreAt_modifyIdx_other hne _ hc

lemma coreAt_assignLoop {j : ℕ} {idv : String} {qa : Option ℚ}
    (activeIdx : List ℕ) :
    ∀ (l : List ℕ) (s : Sim), (∀ k ∈ l, k ≠ j) →
      CoreAt j idv RequestState.expired qa s.requests →
      CoreAt j idv RequestState.expired qa
        (assignLoop activeIdx l s).1.requests := by
  intro l
  induction l with
  | nil => exact fun s _ hc => hc
  | cons i rest ih =>
    intro s hl hc
    simp only [assignLoop]
    split
    · exact ih _ (fun k hk => hl k (List.mem_cons_of_mem i hk))
        (coreAt_assignReady s i _ _ _
          (Ne.symm (hl i (List.mem_cons_self i rest))) hc)
    · exact hc

lemma coreAt_assignStartingLoop {j : ℕ} {idv : String} {qa : Option ℚ}
    (startingIdx : List ℕ) (limit : ℕ) :
    ∀ (k : ℕ) (l : List ℕ) (s : Sim), (∀ m ∈ l, m ≠ j) →
      CoreAt j idv RequestState.expired qa s.requests →
      CoreAt j idv RequestState.expired qa
        (assignStartingLoop startingIdx limit k l s).requests := by
  intro k l
  induction l generalizing k with
  | nil => exact fun s _ hc => hc
  | cons i rest ih =>
    intro s hl hc
    simp only [assignStartingLoop]
    refine ih _ _ (fun m hm => hl m (List.mem_cons_of_mem i hm)) ?_
    split
    · refine coreAt_repositionQueue _ ?_
      exact coreAt_modifyIdx_other
        (Ne.symm (hl i (List.mem_cons_self i rest))) _ hc
    · exact hc

lemma coreAt_assignToStartingReplicas {j : ℕ} {idv : String} {qa : Option ℚ}
    (s : Sim) (l : List ℕ) (hl : ∀ m ∈ l, m ≠ j)
    (hc : CoreAt j idv RequestState.expired qa s.requests) :
    CoreAt j idv RequestState.expired qa
      (assignToStartingReplicas s l).requests := by
  simp only [assignToStartingReplicas]
  split
  · exact hc
  · split
    · exact hc
    · exact coreAt_assignStartingLoop _ _ 0 l s hl hc

/-- The whole dispatch pass never touches an expired request. -/
lemma coreAt_tryAssignToReplicas {j : ℕ} {idv : String} {qa : Option ℚ}
    (s : Sim)
    (hc : CoreAt j idv RequestState.expired qa s.requests) :
    CoreAt j idv RequestState.expired qa (tryAssignToReplicas s).requests := by
  obtain ⟨b, hb, hbid, hbst, hbqa⟩ := hc
  have hc2 : CoreAt j idv RequestState.expired qa s.requests :=
    ⟨b, hb, hbid, hbst, hbqa⟩
  simp only [tryAssignToReplicas]
  split
  · exact coreAt_assignToStartingReplicas s _
      (fun k hk => not_mem_sortedQueuedIdx hb hbst k hk) hc2
  · have h1 : CoreAt j idv RequestState.expired qa
        (assignLoop (activeReplicaIdx s.replicas)
          (sortedQueuedIdx s.requests) s).1.requests :=
      coreAt_assignLoop _ _ s
        (fun k hk => not_mem_sortedQueuedIdx hb hbst k hk) hc2
    obtain ⟨b1, hb1, hb1id, hb1st, hb1qa⟩ := h1
    exact coreAt_assignToStartingReplicas _ _
      (fun k hk => not_mem_queuedIdx hb1 hb1st k hk)
      ⟨b1, hb1, hb1id, hb1st, hb1qa⟩

/-- The phases of a step after the update pass preserve an expired core. -/
lemma coreAt_step_tail {j : ℕ} {idv : String} {qa : Option ℚ} (t : Sim)
    (hc : CoreAt j idv RequestState.expired qa t.requests) :
    CoreAt j idv RequestState.expired qa
      (updateMetrics (tryAssignToReplicas (handleAutoscaling t))).requests := by
  have h1 : CoreAt j idv RequestState.expired qa
      (handleAutoscaling t).requests := by
    rw [(handleAutoscaling_frame t).2.1]
    exact hc
  have h2 := coreAt_tryAssignToReplicas _ h1
  rw [(updateMetrics_frame (tryAssignToReplicas (handleAutoscaling t))).2.1]
  exact h2

/-- **C6**: a request that has been `queued` longer than `maxTimeInQueueMs`
(measured from `queuedAt` against the step's advanced clock) ends that very
`Advance` step in state `expired` — it is never picked up by the dispatch
pass of that step or any later one, because the expiry check of the update
phase runs before dispatch and dispatch only considers `queued` requests. -/
theorem C6_expiry_monotone (s : Sim) (d : ℚ) (i : ℕ) (r : Request)
    (hp : s.paused = false)
    (hr : s.requests.get? i = some r) (hq : r.state = RequestState.queued)
    (hover : s.config.maxTimeInQueueMs <
      qsub (qadd s.tick (qmul d s.speed)) (r.queuedAt.getD 0)) :
    ∃ j b, (s.step d).requests.get? j = some b ∧ b.id = r.id ∧
      b.state = RequestState.expired := by
  simp only [Sim.step]
  rw [if_neg (by simp [hp])]
  have h1 := updateAllRequests_expires
    { s with tick := qadd s.tick (qmul d s.speed) } i r hr hq hover
  generalize hU : updateAllRequests
    { s with tick := qadd s.tick (qmul d s.speed) } = u at h1 ⊢
  obtain ⟨b, hb, hbid, hbst, hbqa⟩ := h1
  have hmem2 : b ∈ List.filter
      (fun r => r.state != RequestState.exiting || decide (mkRat 1 100 < r.alpha))
      u.requests :=
    List.mem_filter.mpr ⟨List.get?_mem hb, by rw [hbst]; rfl⟩
  obtain ⟨j, hj⟩ := List.mem_iff_get?.mp hmem2
  obtain ⟨c, hcg, hcid, hcst, hcqa⟩ := coreAt_step_tail
    { tick := u.tick,
      requests := u.requests.filter
        (fun r => r.state != RequestState.exiting ||
          decide (mkRat 1 100 < r.alpha)),
      replicas := u.replicas.map (updateReplica u.tick u.config.coldStartTimeMs),
      metrics := u.metrics, config := u.config,
      targetReplicas := u.targetReplicas, speed := u.speed, paused := u.paused,
      nextId := u.nextId, nextReplicaId := u.nextReplicaId,
      lastActivityTick := u.lastActivityTick,
      roundRobinIndex := u.roundRobinIndex }
    ⟨b, hj, hbid, hbst, rfl⟩
  exact ⟨j, c, hcg, hcid, hcst⟩

/-- A state holding one overdue queued item, to witness C6. -/
def c6req : Request :=
  { id := "late", state := .queued, priority := 1, createdAt := 0,
    queuedAt := some 0, x := stageXQueue, targetX := stageXQueue, alpha := 1 }

def c6state : Sim :=
  { tick := 0, requests := [c6req], replicas := [], metrics := initialMetrics,
    config := DEFAULT_CONFIG, targetReplicas := 0, speed := 1, paused := false,
    nextId := 1, nextReplicaId := 0, lastActivityTick := 0,
    roundRobinIndex := 0 }

/-- Witness for C6: a 20000 ms step expires the overdue item. -/
theorem C6_expiry_monotone_witness :
    ∃ j b, (c6state.step 20000).requests.get? j = some b ∧
      b.id = c6req.id ∧ b.state = RequestState.expired :=
  C6_expiry_monotone c6state 20000 0 c6req rfl rfl rfl (by decide)

/-! ## C4: dispatch order of the ready-capacity pass -/

/-- `stableInsert` keeps the inserted element and the old elements. -/
lemma stableInsert_mem_of (le : ℕ → ℕ → Bool) (i : ℕ) :
    ∀ (l : List ℕ) (j : ℕ), j = i ∨ j ∈ l → j ∈ stableInsert le i l := by
  intro l
  induction l with
  | nil =>
    intro j hj
    simp only [stableInsert]
    rcases hj with h | h
    · rw [h]
      exact List.mem_singleton.mpr rfl
    · exact absurd h (List.not_mem_nil j)
  | cons a rest ih =>
    intro j hj
    simp only [stableInsert]
    split
    · rcases hj with h | h
      · rw [h]
        exact List.mem_cons_self i (a :: rest)
      · exact List.mem_cons_of_mem i h
    · rcases hj with h | h
      · exact List.mem_cons_of_mem a (ih j (Or.inl h))
      · rcases List.mem_cons.mp h with h2 | h2
        · rw [h2]
          exact List.mem_cons_self a _
        · exact List.mem_cons_of_mem a (ih j (Or.inr h2))

lemma stableSort_mem_of (le : ℕ → ℕ → Bool) :
    ∀ (l : List ℕ) (j : ℕ), j ∈ l → j ∈ stableSort le l := by
  intro l
  induction l with
  | nil => exact fun j hj => absurd hj (List.not_mem_nil j)
  | cons a rest ih =>
    intro j hj
    simp only [stableSort]
    rcases List.mem_cons.mp hj with h | h
    · exact stableInsert_mem_of le a _ j (Or.inl h)
    · exact stableInsert_mem_of le a _ j (Or.inr (ih j h))

/-- Insertion into a sorted list keeps it sorted (`le` total and
transitive). -/
lemma stableInsert_pairwise (le : ℕ → ℕ → Bool)
    (htot : ∀ a b, le a b = true ∨ le b a = true)
    (htrans : ∀ a b c, le a b = true → le b c = true → le a c = true)
    (i : ℕ) : ∀ l : List ℕ, l.Pairwise (fun a b => le a b = true) →
      (stableInsert le i l).Pairwise (fun a b => le a b = true) := by
  intro l
  induction l with
  | nil =>
    intro _
    simp only [stableInsert]
    exact List.pairwise_singleton _ i
  | cons a rest ih =>
    intro hp
    simp only [stableInsert]
    split
    · rename_i hia
      refine List.Pairwise.cons ?_ hp
      intro b hb
      rcases List.mem_cons.mp hb with hba | hbr
      · rw [hba]
        exact hia
      · exact htrans i a b hia (List.rel_of_pairwise_cons hp hbr)
    · rename_i hia
      have hai : le a i = true := (htot i a).resolve_left hia
      refine List.Pairwise.cons ?_ (ih hp.of_cons)
      intro b hb
      rcases stableInsert_mem le i rest b hb with hbi | hbr
      · rw [hbi]
        exact hai
      · exact List.rel_of_pairwise_cons hp hbr

/-- The stable sort output is sorted under a total transitive `le`. -/
lemma stableSort_pairwise (le : ℕ → ℕ → Bool)
    (htot : ∀ a b, le a b = true ∨ le b a = true)
    (htrans : ∀ a b c, le a b = true → le b c = true → le a c = true) :
    ∀ l : List ℕ, (stableSort le l).Pairwise (fun a b => le a b = true) := by
  intro l
  induction l with
  | nil =>
    simp only [stableSort]
    exact List.Pairwise.nil
  | cons a rest ih =>
    simp only [stableSort]
    exact stableInsert_pairwise le htot htrans a _ ih

/-- The queued-request comparator is total. -/
lemma reqLeB_total (a b : Request) : reqLeB a b = true ∨ reqLeB b a = true := by
  simp only [reqLeB, Bool.or_eq_true, decide_eq_true_eq, Bool.and_eq_true,
    beq_iff_eq]
  rcases Nat.lt_trichotomy a.priority b.priority with h | h | h
  · exact Or.inl (Or.inl h)
  · rcases le_total a.createdAt b.createdAt with hc | hc
    · exact Or.inl (Or.inr ⟨h, hc⟩)
    · exact Or.inr (Or.inr ⟨h.symm, hc⟩)
  · exact Or.inr (Or.inl h)

/-- The queued-request comparator is transitive. -/
lemma reqLeB_trans (a b c : Request) (h1 : reqLeB a b = true)
    (h2 : reqLeB b c = true) : reqLeB a c = true := by
  simp only [reqLeB, Bool.or_eq_true, decide_eq_true_eq, Bool.and_eq_true,
    beq_iff_eq] at h1 h2 ⊢
  rcases h1 with h1 | ⟨h1, h1c⟩ <;> rcases h2 with h2 | ⟨h2, h2c⟩
  · exact Or.inl (by omega)
  · exact Or.inl (by omega)
  · exact Or.inl (by omega)
  · exact Or.inr ⟨h1.trans h2, le_trans h1c h2c⟩

/-- A strict lexicographic `(priority, createdAt)` gap refutes the reverse
comparison. -/
lemma reqLeB_strict (A B : Request)
    (h : A.priority < B.priority ∨
      (A.priority = B.priority ∧ A.createdAt < B.createdAt)) :
    reqLeB B A = false := by
  rcases h with h | ⟨h1, h2⟩
  · have e1 : decide (B.priority < A.priority) = false := by
      simp only [decide_eq_false_iff_not]
      omega
    have e2 : (B.priority == A.priority) = false := by
      simp only [beq_eq_false_iff_ne]
      omega
    unfold reqLeB
    rw [e1, e2]
    rfl
  · have e1 : decide (B.priority < A.priority) = false := by
      simp only [decide_eq_false_iff_not]
      omega
    have e2 : (B.priority == A.priority) = true := by
      simp only [beq_iff_eq]
      omega
    have e3 : decide (B.createdAt ≤ A.createdAt) = false := by
      simp only [decide_eq_false_iff_not]
      exact not_le.mpr h2
    unfold reqLeB
    rw [e1, e2, e3]
    rfl

/-- The sorted queue snapshot is pairwise ordered by the comparator. -/
lemma sortedQueuedIdx_pairwise (rs : List Request) :
    (sortedQueuedIdx rs).Pairwise (fun i j => reqIdxLe rs i j = true) :=
  stableSort_pairwise _
    (fun i j => reqLeB_total (rs.getD i default) (rs.getD j default))
    (fun i j k h1 h2 => reqLeB_trans _ _ _ h1 h2)
    (queuedIdx rs)

lemma pairwise_get?_rel {R : ℕ → ℕ → Prop} {l : List ℕ}
    (h : l.Pairwise R) {k1 k2 : ℕ} (hlt : k1 < k2) {a b : ℕ}
    (h1 : l.get? k1 = some a) (h2 : l.get? k2 = some b) : R a b := by
  obtain ⟨hl1, hg1⟩ := List.get?_eq_some.mp h1
  obtain ⟨hl2, hg2⟩ := List.get?_eq_some.mp h2
  have hrel := List.pairwise_iff_get.mp h ⟨k1, hl1⟩ ⟨k2, hl2⟩
    (Fin.mk_lt_mk.mpr hlt)
  rwa [hg1, hg2] at hrel

/-- The ghost assignment list of the ready pass is an initial segment of its
input list. -/
lemma assignLoop_ghost_append (activeIdx : List ℕ) :
    ∀ (l : List ℕ) (s : Sim), ∃ t, l = (assignLoop activeIdx l s).2 ++ t := by
  intro l
  induction l with
  | nil => exact fun s => ⟨[], rfl⟩
  | cons i rest ih =>
    intro s
    simp only [assignLoop]
    split
    · rename_i pos hpos
      obtain ⟨t, ht⟩ := ih
        (assignReady s i (activeIdx.getD pos 0) pos activeIdx.length)
      refine ⟨t, ?_⟩
      show i :: rest = (i :: (assignLoop activeIdx rest
        (assignReady s i (activeIdx.getD pos 0) pos activeIdx.length)).2) ++ t
      rw [List.cons_append]
      exact congrArg (fun u => i :: u) ht
    · exact ⟨i :: rest, rfl⟩

/-- The positions the ready pass assigns form an initial segment of the
sorted queue snapshot. -/
lemma readyPass_initial_seg (s : Sim) :
    ∃ t, sortedQueuedIdx s.requests = readyPassAssigned s ++ t := by
  simp only [readyPassAssigned]
  split
  · exact ⟨sortedQueuedIdx s.requests, rfl⟩
  · exact assignLoop_ghost_append _ _ s

/-- **C4** (amended): in a single ready-capacity dispatch pass the assigned
positions are an initial segment of the `(priority, createdAt)`-sorted
queue — once one queued item cannot be placed, no later item is assigned in
that pass — and for two queued items whose keys are STRICTLY
lexicographically ordered, if the later-keyed item is assigned then the
earlier-keyed one is assigned strictly earlier in the pass.  (With equal
keys the stable sort keeps insertion order, so the non-strict form of the
spec fails; see the counterexample.) -/
theorem C4_ordering_amended (s : Sim) (iA iB : ℕ) (A B : Request)
    (hA : s.requests.get? iA = some A) (hB : s.requests.get? iB = some B)
    (hqA : A.state = RequestState.queued)
    (hlex : A.priority < B.priority ∨
      (A.priority = B.priority ∧ A.createdAt < B.createdAt))
    (hiB : iB ∈ readyPassAssigned s) (hne : iA ≠ iB) :
    (∃ t, sortedQueuedIdx s.requests = readyPassAssigned s ++ t) ∧
    ∃ kA kB2, kA < kB2 ∧ (readyPassAssigned s).get? kA = some iA ∧
      (readyPassAssigned s).get? kB2 = some iB := by
  obtain ⟨t, ht⟩ := readyPass_initial_seg s
  refine ⟨⟨t, ht⟩, ?_⟩
  have hiAq : iA ∈ queuedIdx s.requests := by
    refine List.mem_filter.mpr ⟨List.mem_range.mpr (List.get?_eq_some.mp hA).1, ?_⟩
    rw [List.getD_eq_get?, hA]
    simp [hqA]
  have hiAs : iA ∈ sortedQueuedIdx s.requests :=
    stableSort_mem_of _ _ iA hiAq
  obtain ⟨kB2, hkB⟩ := List.mem_iff_get?.mp hiB
  obtain ⟨kA, hkA⟩ := List.mem_iff_get?.mp hiAs
  have hkB2len : kB2 < (readyPassAssigned s).length :=
    (List.get?_eq_some.mp hkB).1
  have hsB : (sortedQueuedIdx s.requests).get? kB2 = some iB := by
    rw [ht, List.get?_append hkB2len]
    exact hkB
  have hkne : kA ≠ kB2 := by
    intro he
    rw [he, hsB] at hkA
    exact hne (Option.some.inj hkA).symm
  have hklt : kA < kB2 := by
    by_contra hcon
    have hgt : kB2 < kA := by omega
    have hrel := pairwise_get?_rel (sortedQueuedIdx_pairwise s.requests)
      hgt hsB hkA
    simp only [reqIdxLe] at hrel
    rw [List.getD_eq_get?, List.getD_eq_get?, hA, hB] at hrel
    simp only [Option.getD_some] at hrel
    rw [reqLeB_strict A B hlex] at hrel
    exact Bool.false_ne_true hrel
  have hgA : (readyPassAssigned s).get? kA = some iA := by
    rw [ht, List.get?_append (by omega)] at hkA
    exact hkA
  exact ⟨kA, kB2, hklt, hgA, hkB⟩

/-- Witness state for C4: two queued items with strictly ordered keys and
one ready worker able to take both. -/
def c4reqA : Request :=
  { id := "a", state := .queued, priority := 1, createdAt := 0,
    queuedAt := some 0, x := stageXQueue, targetX := stageXQueue, alpha := 1 }

def c4reqB : Request :=
  { id := "b", state := .queued, priority := 2, createdAt := 0,
    queuedAt := some 0, x := stageXQueue, targetX := stageXQueue, alpha := 1 }

def c4state : Sim :=
  { tick := 0, requests := [c4reqA, c4reqB], replicas := [c5rep 0],
    metrics := initialMetrics,
    config := { DEFAULT_CONFIG with concurrencyTarget := 2 },
    targetReplicas := 1, speed := 1, paused := false, nextId := 2,
    nextReplicaId := 1, lastActivityTick := 0, roundRobinIndex := 0 }

/-- Witness for C4 at the two-item one-worker state. -/
theorem C4_ordering_amended_witness :
    (∃ t, sortedQueuedIdx c4state.requests = readyPassAssigned c4state ++ t) ∧
    ∃ kA kB2, kA < kB2 ∧ (readyPassAssigned c4state).get? kA = some 0 ∧
      (readyPassAssigned c4state).get? kB2 = some 1 :=
  C4_ordering_amended c4state 0 1 c4reqA c4reqB rfl rfl rfl
    (Or.inl (by decide)) (by decide) (by decide)

/-! ## C1: the claim-list bound of every worker is `concurrencyTarget` -/

/-- Per-replica capacity facts: the claim list is bounded by the scaling
target, a `ready` replica has spare capacity, and a replica that is neither
`ready` nor `busy` holds no claims. -/
def RepOK (target : ℕ) (p : Replica) : Prop :=
  p.currentRequestIds.length ≤ target ∧
  (p.state = ReplicaState.ready → p.currentRequestIds.length < target) ∧
  (p.state ≠ ReplicaState.ready → p.state ≠ ReplicaState.busy →
    p.currentRequestIds = [])

/-- Pool facts: every replica is capacity-sound, ids are pairwise distinct
and below the id counter. -/
def PoolInv (target n : ℕ) (ps : List Replica) : Prop :=
  (∀ p ∈ ps, RepOK target p) ∧
  (ps.map (fun p => p.id)).Nodup ∧
  (∀ x ∈ ps.map (fun p => p.id), x < n)

/-- `PoolInv` at the engine state's own fields. -/
def SimPoolInv (s : Sim) : Prop :=
  PoolInv s.config.concurrencyTarget s.nextReplicaId s.replicas

lemma poolInv_mono {target n m : ℕ} {ps : List Replica} (h : n ≤ m)
    (hp : PoolInv target n ps) : PoolInv target m ps :=
  ⟨hp.1, hp.2.1, fun x hx => Nat.lt_of_lt_of_le (hp.2.2 x hx) h⟩

lemma modifyFirst_mem (P : Replica → Bool) (f : Replica → Replica) :
    ∀ (ps : List Replica) (q : Replica), q ∈ modifyFirst P f ps →
      q ∈ ps ∨ ∃ a, a ∈ ps ∧ q = f a := by
  intro ps
  induction ps with
  | nil => exact fun q h => absurd h (List.not_mem_nil q)
  | cons a rest ih =>
    intro q h
    simp only [modifyFirst] at h
    split at h
    · rcases List.mem_cons.mp h with he | hr
      · exact Or.inr ⟨a, List.mem_cons_self a rest, he⟩
      · exact Or.inl (List.mem_cons_of_mem a hr)
    · rcases List.mem_cons.mp h with he | hr
      · refine Or.inl ?_
        rw [he]
        exact List.mem_cons_self a rest
      · rcases ih q hr with h2 | ⟨b, hb, he2⟩
        · exact Or.inl (List.mem_cons_of_mem a h2)
        · exact Or.inr ⟨b, List.mem_cons_of_mem a hb, he2⟩

lemma modifyFirst_map_id (P : Replica → Bool) (f : Replica → Replica)
    (hf : ∀ q, (f q).id = q.id) :
    ∀ ps : List Replica,
      (modifyFirst P f ps).map (fun p => p.id) = ps.map (fun p => p.id) := by
  intro ps
  induction ps with
  | nil => rfl
  | cons a rest ih =>
    simp only [modifyFirst]
    split
    · simp only [List.map_cons, hf]
    · simp only [List.map_cons, ih]

lemma set_same {α : Type} : ∀ (l : List α) (j : ℕ) (x : α),
    l.get? j = some x → l.set j x = l := by
  intro l
  induction l with
  | nil => intro j x h; cases h
  | cons a rest ih =>
    intro j x h
    cases j with
    | zero =>
      simp only [List.get?] at h
      rw [Option.some.inj h]
      rfl
    | succ j =>
      simp only [List.get?] at h
      simp only [List.set]
      rw [ih j x h]

lemma mem_modifyIdx {ps : List Replica} {j : ℕ} {f : Replica → Replica}
    {q : Replica} (h : q ∈ modifyIdx ps j f) :
    q ∈ ps ∨ ∃ a, ps.get? j = some a ∧ q = f a := by
  unfold modifyIdx at h
  split at h
  · rename_i a ha
    rcases List.mem_or_eq_of_mem_set h with h2 | h2
    · exact Or.inl h2
    · exact Or.inr ⟨a, ha, h2⟩
  · exact Or.inl h

lemma modifyIdx_map_id (ps : List Replica) (j : ℕ) (f : Replica → Replica)
    (hf : ∀ q, (f q).id = q.id) :
    (modifyIdx ps j f).map (fun p => p.id) = ps.map (fun p => p.id) := by
  unfold modifyIdx
  split
  · rename_i a ha
    rw [List.map_set, hf]
    refine set_same _ _ _ ?_
    rw [List.get?_map, ha]
    rfl
  · rfl

lemma find?_congr {P Q : Replica → Bool} (h : ∀ q, P q = Q q) :
    ∀ ps : List Replica, ps.find? P = ps.find? Q := by
  intro ps
  induction ps with
  | nil => rfl
  | cons a rest ih =>
    rw [List.find?_cons, List.find?_cons, h a]
    cases Q a
    · exact ih
    · rfl

/-- One-step unfolding of `claimSlot`. -/
lemma claimSlot_cons (a : Replica) (rest : List Replica) (rid : ℕ)
    (reqId : String) (target : ℕ) :
    claimSlot (a :: rest) rid reqId target =
      if a.id == rid then
        { a with currentRequestIds := a.currentRequestIds ++ [reqId],
                 state := if target ≤ (a.currentRequestIds ++ [reqId]).length
                   then ReplicaState.busy else ReplicaState.ready } :: rest
      else a :: claimSlot rest rid reqId target := rfl

lemma claimSlot_map_id (ps : List Replica) (rid : ℕ) (reqId : String)
    (target : ℕ) :
    (claimSlot ps rid reqId target).map (fun p => p.id) =
      ps.map (fun p => p.id) := by
  simp only [claimSlot]
  refine modifyFirst_map_id _ _ ?_ ps
  intro q
  rfl

lemma releaseClaim_map_id (ps : List Replica) (rid : ℕ) (reqId : String) :
    (releaseClaim ps rid reqId).map (fun p => p.id) =
      ps.map (fun p => p.id) := by
  simp only [releaseClaim]
  refine modifyFirst_map_id _ _ ?_ ps
  intro q
  rfl

lemma finishOnReplica_map_id (ps : List Replica) (reqId : String)
    (target : ℕ) :
    (finishOnReplica ps reqId target).map (fun p => p.id) =
      ps.map (fun p => p.id) := by
  simp only [finishOnReplica]
  refine modifyFirst_map_id _ _ ?_ ps
  intro q
  rfl

/-- A claim guarded by spare capacity at the first id match keeps every
replica capacity-sound. -/
lemma claimSlot_repok (target : ℕ) (rid : ℕ) (reqId : String) :
    ∀ ps : List Replica, (∀ p ∈ ps, RepOK target p) →
      (∀ p, ps.find? (fun q => q.id == rid) = some p →
        p.currentRequestIds.length < target) →
      ∀ p' ∈ claimSlot ps rid reqId target, RepOK target p' := by
  intro ps
  induction ps with
  | nil =>
    intro _ _ p' h
    exact absurd h (List.not_mem_nil p')
  | cons a rest ih =>
    intro hall hfirst p' hmem
    rw [claimSlot_cons] at hmem
    by_cases hpred : (a.id == rid) = true
    · rw [if_pos hpred] at hmem
      rcases List.mem_cons.mp hmem with he | hr
      · have hlen : a.currentRequestIds.length < target :=
          hfirst a (List.find?_cons_of_pos rest hpred)
        have hlen2 : (a.currentRequestIds ++ [reqId]).length ≤ target := by
          rw [List.length_append]
          simp only [List.length_singleton]
          omega
        rw [he]
        by_cases hc : target ≤ (a.currentRequestIds ++ [reqId]).length
        · refine ⟨hlen2, ?_, ?_⟩
          · intro hready
            rw [show ({ a with
                currentRequestIds := a.currentRequestIds ++ [reqId],
                state := if target ≤ (a.currentRequestIds ++ [reqId]).length
                  then ReplicaState.busy else ReplicaState.ready } :
                  Replica).state =
              (if target ≤ (a.currentRequestIds ++ [reqId]).length
                then ReplicaState.busy else ReplicaState.ready) from rfl,
              if_pos hc] at hready
            exact absurd hready (by decide)
          · intro _ hnb
            exact absurd (if_pos hc) hnb
        · refine ⟨hlen2, ?_, ?_⟩
          · intro _
            show (a.currentRequestIds ++ [reqId]).length < target
            omega
          · intro hnr _
            exact absurd (if_neg hc) hnr
      · exact hall p' (List.mem_cons_of_mem a hr)
    · rw [if_neg hpred] at hmem
      rcases List.mem_cons.mp hmem with he | hr
      · rw [he]
        exact hall a (List.mem_cons_self a rest)
      · refine ih (fun p hp => hall p (List.mem_cons_of_mem a hp))
          (fun p hfp => hfirst p ?_) p' hr
        rw [List.find?_cons_of_neg rest hpred]
        exact hfp

lemma claimSlot_poolinv (ps : List Replica) (rid : ℕ) (reqId : String)
    (target n : ℕ) (hp : PoolInv target n ps)
    (hfirst : ∀ p, ps.find? (fun q => q.id == rid) = some p →
      p.currentRequestIds.length < target) :
    PoolInv target n (claimSlot ps rid reqId target) := by
  obtain ⟨hall, hnd, hbd⟩ := hp
  refine ⟨claimSlot_repok target rid reqId ps hall hfirst, ?_, ?_⟩
  · rw [claimSlot_map_id]
    exact hnd
  · intro x hx
    rw [claimSlot_map_id] at hx
    exact hbd x hx

lemma releaseClaim_poolinv (ps : List Replica) (rid : ℕ) (reqId : String)
    (target n : ℕ) (hp : PoolInv target n ps) :
    PoolInv target n (releaseClaim ps rid reqId) := by
  obtain ⟨hall, hnd, hbd⟩ := hp
  refine ⟨?_, ?_, ?_⟩
  · intro q hq
    rcases modifyFirst_mem _ _ ps q hq with h | ⟨a, ha, he⟩
    · exact hall q h
    · obtain ⟨h1, h2, h3⟩ := hall a ha
      rw [he]
      refine ⟨?_, ?_, ?_⟩
      · exact le_trans (List.length_filter_le _ _) h1
      · intro hready
        exact Nat.lt_of_le_of_lt (List.length_filter_le _ _) (h2 hready)
      · intro hnr hnb
        rw [h3 hnr hnb]
        rfl
  · rw [releaseClaim_map_id]
    exact hnd
  · intro x hx
    rw [releaseClaim_map_id] at hx
    exact hbd x hx

lemma finishOnReplica_poolinv (ps : List Replica) (reqId : String)
    (target n : ℕ) (hp : PoolInv target n ps) :
    PoolInv target n (finishOnReplica ps reqId target) := by
  obtain ⟨hall, hnd, hbd⟩ := hp
  refine ⟨?_, ?_, ?_⟩
  · intro q hq
    rcases modifyFirst_mem _ _ ps q hq with h | ⟨a, ha, he⟩
    · exact hall q h
    · obtain ⟨h1, h2, h3⟩ := hall a ha
      rw [he]
      have hle : (a.currentRequestIds.filter (fun x => x != reqId)).length ≤
          target := le_trans (List.length_filter_le _ _) h1
      by_cases hc : target ≤
          (a.currentRequestIds.filter (fun x => x != reqId)).length
      · refine ⟨hle, ?_, ?_⟩
        · intro hready
          rw [show ({ a with
              currentRequestIds := a.currentRequestIds.filter (fun x => x != reqId),
              state := if target ≤
                  (a.currentRequestIds.filter (fun x => x != reqId)).length
                then ReplicaState.busy else ReplicaState.ready } :
                Replica).state =
            (if target ≤
                (a.currentRequestIds.filter (fun x => x != reqId)).length
              then ReplicaState.busy else ReplicaState.ready) from rfl,
            if_pos hc] at hready
          exact absurd hready (by decide)
        · intro _ hnb
          exact absurd (if_pos hc) hnb
      · refine ⟨hle, ?_, ?_⟩
        · intro _
          show (a.currentRequestIds.filter (fun x => x != reqId)).length < target
          omega
        · intro hnr _
          exact absurd (if_neg hc) hnr
  · rw [finishOnReplica_map_id]
    exact hnd
  · intro x hx
    rw [finishOnReplica_map_id] at hx
    exact hbd x hx

lemma updateReplica_id (tick cs : ℚ) (p : Replica) :
    (updateReplica tick cs p).id = p.id := by
  simp only [updateReplica]
  (repeat' split) <;> rfl

/-- The cold-start promotion stage of `updateReplica` keeps a replica
capacity-sound (a `starting` replica holds no claims, so with
`1 ≤ target` it becomes `ready` with spare capacity). -/
lemma repok_stage1 (tick cs : ℚ) (target : ℕ) (ht : 1 ≤ target)
    (p : Replica) (hp : RepOK target p) :
    RepOK target
      (match p.startingAt with
       | some t =>
         if p.state = ReplicaState.starting ∧ t ≠ 0 then
           if cs ≤ qsub tick t then
             { p with state := ReplicaState.ready, startingAt := none }
           else p
         else p
       | none => p) := by
  obtain ⟨h1, h2, h3⟩ := hp
  split
  · split
    · rename_i hcond
      split
      · have hids : p.currentRequestIds = [] := by
          refine h3 ?_ ?_
          · rw [hcond.1]
            decide
          · rw [hcond.1]
            decide
        refine ⟨?_, ?_, ?_⟩
        · show p.currentRequestIds.length ≤ target
          rw [hids]
          exact Nat.zero_le target
        · intro _
          show p.currentRequestIds.length < target
          rw [hids]
          exact ht
        · intro hr _
          exact absurd rfl hr
      · exact ⟨h1, h2, h3⟩
    · exact ⟨h1, h2, h3⟩
  · exact ⟨h1, h2, h3⟩

/-- The stop-timer stage of `updateReplica` keeps a replica capacity-sound
(a `stopping` replica holds no claims). -/
lemma repok_stage2 (tick : ℚ) (target : ℕ) (q : Replica)
    (hq : RepOK target q) :
    RepOK target
      (match q.stoppingAt with
       | some t =>
         if q.state = ReplicaState.stopping ∧ t ≠ 0 then
           if (1000 : ℚ) ≤ qsub tick t then
             { q with state := ReplicaState.stopped, stoppingAt := none }
           else q
         else q
       | none => q) := by
  obtain ⟨h1, h2, h3⟩ := hq
  split
  · split
    · rename_i hcond
      split
      · have hids : q.currentRequestIds = [] := by
          refine h3 ?_ ?_
          · rw [hcond.1]
            decide
          · rw [hcond.1]
            decide
        refine ⟨?_, ?_, ?_⟩
        · show q.currentRequestIds.length ≤ target
          rw [hids]
          exact Nat.zero_le target
        · intro hr
          exact absurd hr (fun hh => ReplicaState.noConfusion hh)
        · intro _ _
          exact hids
      · exact ⟨h1, h2, h3⟩
    · exact ⟨h1, h2, h3⟩
  · exact ⟨h1, h2, h3⟩

lemma updateReplica_RepOK (tick cs : ℚ) (target : ℕ) (ht : 1 ≤ target)
    (p : Replica) (hp : RepOK target p) :
    RepOK target (updateReplica tick cs p) := by
  simp only [updateReplica]
  exact repok_stage2 tick target _ (repok_stage1 tick cs target ht p hp)

/-- The timer pass over the pool preserves the pool invariant. -/
lemma mapUpdateReplica_pool (s : Sim) (ht : 1 ≤ s.config.concurrencyTarget)
    (hs : SimPoolInv s) :
    SimPoolInv { s with
      replicas := s.replicas.map (updateReplica s.tick s.config.coldStartTimeMs) } := by
  obtain ⟨hall, hnd, hbd⟩ := hs
  refine ⟨?_, ?_, ?_⟩
  · intro q hq
    obtain ⟨a, ha, he⟩ := List.mem_map.mp hq
    rw [← he]
    exact updateReplica_RepOK _ _ _ ht a (hall a ha)
  · show ((s.replicas.map (updateReplica s.tick s.config.coldStartTimeMs)).map
      (fun p => p.id)).Nodup
    rw [List.map_map,
      show List.map ((fun p => p.id) ∘ updateReplica s.tick s.config.coldStartTimeMs)
          s.replicas = List.map (fun p => p.id) s.replicas from
        List.map_congr_left (fun a _ => updateReplica_id _ _ a)]
    exact hnd
  · intro x hx
    rw [List.map_map,
      show List.map ((fun p => p.id) ∘ updateReplica s.tick s.config.coldStartTimeMs)
          s.replicas = List.map (fun p => p.id) s.replicas from
        List.map_congr_left (fun a _ => updateReplica_id _ _ a)] at hx
    exact hbd x hx

/-- Pointwise version of `modifyIdx` preservation of the pool facts. -/
lemma modifyIdx_poolinv (target n : ℕ) (ps : List Replica) (j : ℕ)
    (f : Replica → Replica) (hfid : ∀ q, (f q).id = q.id)
    (hfrep : ∀ q, RepOK target q → RepOK target (f q))
    (hp : PoolInv target n ps) : PoolInv target n (modifyIdx ps j f) := by
  obtain ⟨hall, hnd, hbd⟩ := hp
  refine ⟨?_, ?_, ?_⟩
  · intro q hq
    rcases mem_modifyIdx hq with h | ⟨a, ha, he⟩
    · exact hall q h
    · rw [he]
      exact hfrep a (hall a (List.get?_mem ha))
  · rw [modifyIdx_map_id ps j f hfid]
    exact hnd
  · intro x hx
    rw [modifyIdx_map_id ps j f hfid] at hx
    exact hbd x hx

/-- Appending a fresh replica whose id is the current counter keeps the
pool facts at the bumped counter. -/
lemma append_fresh_pool {target n : ℕ} {ps : List Replica} (p : Replica)
    (hpr : RepOK target p) (hid : p.id = n)
    (hp : PoolInv target n ps) : PoolInv target (n + 1) (ps ++ [p]) := by
  obtain ⟨hall, hnd, hbd⟩ := hp
  refine ⟨?_, ?_, ?_⟩
  · intro q hq
    rcases List.mem_append.mp hq with h | h
    · exact hall q h
    · rw [List.mem_singleton.mp h]
      exact hpr
  · rw [List.map_append, List.nodup_append]
    refine ⟨hnd, List.nodup_singleton _, ?_⟩
    rw [show List.map (fun p => p.id) [p] = [p.id] from rfl,
      List.disjoint_singleton, hid]
    intro hmem
    exact Nat.lt_irrefl _ (hbd _ hmem)
  · intro x hx
    rw [List.map_append] at hx
    rcases List.mem_append.mp hx with h | h
    · exact Nat.lt_succ_of_lt (hbd x h)
    · rw [show List.map (fun p => p.id) [p] = [p.id] from rfl] at h
      rw [List.mem_singleton.mp h, hid]
      exact Nat.lt_succ_self _

lemma scaleUpLoop_pool : ∀ (fuel : ℕ) (s : Sim) (active : ℕ),
    SimPoolInv s → SimPoolInv (scaleUpLoop fuel s active).1 := by
  intro fuel
  induction fuel with
  | zero => exact fun s a h => h
  | succ fuel ih =>
    intro s active hs
    obtain ⟨hall, hnd, hbd⟩ := hs
    simp only [scaleUpLoop]
    split
    · split
      · refine ih _ _ ?_
        refine modifyIdx_poolinv _ _ _ _ _ ?_ ?_ ⟨hall, hnd, hbd⟩
        · intro q
          rfl
        · intro q _
          refine ⟨Nat.zero_le _, ?_, ?_⟩
          · intro hr
            exact absurd hr (fun hh => ReplicaState.noConfusion hh)
          · intro _ _
            rfl
      · split
        · refine ih _ _ ?_
          refine append_fresh_pool _ ?_ rfl ⟨hall, hnd, hbd⟩
          refine ⟨Nat.zero_le _, ?_, ?_⟩
          · intro hr
            exact absurd hr (fun hh => ReplicaState.noConfusion hh)
          · intro _ _
            rfl
        · exact ⟨hall, hnd, hbd⟩
    · exact ⟨hall, hnd, hbd⟩

lemma scaleDownLoop_pool : ∀ (fuel : ℕ) (s : Sim) (active : ℕ),
    SimPoolInv s → SimPoolInv (scaleDownLoop fuel s active) := by
  intro fuel
  induction fuel with
  | zero => exact fun s a h => h
  | succ fuel ih =>
    intro s active hs
    simp only [scaleDownLoop]
    split
    · split
      · refine ih _ _ ?_
        refine modifyIdx_poolinv _ _ _ _ _ ?_ ?_ hs
        · intro q
          rfl
        · intro q _
          refine ⟨Nat.zero_le _, ?_, ?_⟩
          · intro hr
            exact absurd hr (fun hh => ReplicaState.noConfusion hh)
          · intro _ _
            rfl
      · exact hs
    · exact hs

lemma reconcileReplicas_pool (s : Sim) (hs : SimPoolInv s) :
    SimPoolInv (reconcileReplicas s) := by
  simp only [reconcileReplicas]
  exact scaleDownLoop_pool _ _ _ (scaleUpLoop_pool _ _ _ hs)

lemma handleAutoscaling_pool (s : Sim) (hs : SimPoolInv s) :
    SimPoolInv (handleAutoscaling s) := by
  obtain ⟨t, he, h1, h2, h3, h4, h5, h6, h7, h8, h9, hrep, h10⟩ :=
    handleAutoscaling_eq s
  rw [he]
  refine reconcileReplicas_pool t ?_
  unfold SimPoolInv
  rw [h4, h8, hrep]
  exact hs

/-- The first id match of the dispatch claim is the guarded replica: ids are
unique, so the replica found by id is the one whose spare capacity the
round-robin scan just checked. -/
lemma c1_hfirst_dispatch (s : Sim) (repIdx : ℕ)
    (hlt : repIdx < s.replicas.length)
    (hguard : (s.replicas.getD repIdx default).currentRequestIds.length <
      s.config.concurrencyTarget)
    (hs : SimPoolInv s) :
    ∀ p', s.replicas.find?
        (fun q => q.id == (s.replicas.getD repIdx default).id) = some p' →
      p'.currentRequestIds.length < s.config.concurrencyTarget := by
  intro p' hf
  obtain ⟨q0, hq0⟩ : ∃ q0, s.replicas.get? repIdx = some q0 := by
    cases hh : s.replicas.get? repIdx with
    | none =>
      have := List.get?_eq_none.mp hh
      omega
    | some v => exact ⟨v, rfl⟩
  have hgd : s.replicas.getD repIdx default = q0 := by
    rw [List.getD_eq_get?, hq0]
    rfl
  have hid : p'.id = q0.id := by
    have h2 := List.find?_some hf
    rw [hgd] at h2
    exact beq_iff_eq.mp h2
  have hpeq : p' = q0 :=
    List.inj_on_of_nodup_map hs.2.1 (List.mem_of_find?_eq_some hf)
      (List.get?_mem hq0) hid
  rw [hpeq, ← hgd]
  exact hguard

/-- The first id match of the `waiting_for_model` claim is the `ready`
replica just found by `find?` over the same id predicate. -/
lemma c1_hfirst_wfm (s : Sim) (r0 : Request) (p : Replica)
    (hfound : s.replicas.find?
      (fun q => some q.id == (lerpReq r0).assignedReplica) = some p)
    (hready : p.state = ReplicaState.ready) (hs : SimPoolInv s) :
    ∀ p', s.replicas.find? (fun q => q.id == p.id) = some p' →
      p'.currentRequestIds.length < s.config.concurrencyTarget := by
  intro p' hf
  have hpa := List.find?_some hfound
  have hasg : (lerpReq r0).assignedReplica = some p.id :=
    (beq_iff_eq.mp hpa).symm
  have hcong : ∀ q : Replica,
      (q.id == p.id) = (some q.id == (lerpReq r0).assignedReplica) := by
    intro q
    rw [hasg]
    by_cases h : q.id = p.id
    · rw [h]
      simp
    · simp [h]
  have hsame : s.replicas.find? (fun q => q.id == p.id) =
      s.replicas.find? (fun q => some q.id == (lerpReq r0).assignedReplica) :=
    find?_congr hcong s.replicas
  rw [hsame, hfound] at hf
  have hpp : p' = p := (Option.some.inj hf).symm
  rw [hpp]
  exact (hs.1 p (List.mem_of_find?_eq_some hfound)).2.1 hready

/-- `updateRequest` preserves the pool invariant: its two claim sites are
guarded by the `ready` state of the found replica, and its releases only
shrink claim lists. -/
lemma updateRequestAt_pool (s : Sim) (i : ℕ) (hs : SimPoolInv s) :
    SimPoolInv (updateRequestAt s i) := by
  have hcf := (updateRequestAt_frame s i).2.2.1
  have hnx := (updateRequestAt_frame s i).2.2.2.2.2.2.2.1
  unfold SimPoolInv
  rw [hcf, hnx]
  simp only [updateRequestAt]
  cases hg : s.requests.get? i with
  | none => exact hs
  | some r0 =>
    simp only []
    cases hst : (lerpReq r0).state <;> simp only []
    case entering => (repeat' split) <;> exact hs
    case validating => exact hs
    case queued => (repeat' split) <;> exact hs
    case processing =>
      split
      · exact finishOnReplica_poolinv _ _ _ _ hs
      · exact hs
    case delivering => (repeat' split) <;> exact hs
    case completed => (repeat' split) <;> exact hs
    case failed => (repeat' split) <;> exact hs
    case expired => (repeat' split) <;> exact hs
    case exiting => exact hs
    case rate_limited => exact hs
    case waiting_capacity => exact hs
    case waiting_for_model =>
      split
      · split
        · rename_i p hfound
          by_cases hready : p.state = ReplicaState.ready
          · simp only [if_pos hready]
            refine releaseClaim_poolinv _ _ _ _ _ ?_
            refine claimSlot_poolinv _ _ _ _ _ hs ?_
            exact c1_hfirst_wfm s r0 p hfound hready hs
          · simp only [if_neg hready]
            exact releaseClaim_poolinv _ _ _ _ _ hs
        · exact hs
      · split
        · rename_i p hfound
          by_cases hready : p.state = ReplicaState.ready
          · simp only [if_pos hready]
            refine claimSlot_poolinv _ _ _ _ _ hs ?_
            exact c1_hfirst_wfm s r0 p hfound hready hs
          · simp only [if_neg hready]
            exact hs
        · exact hs

/-- The slot found by the round-robin scan has spare capacity and is a valid
position of the scanned list. -/
lemma findSlotAux_some_spec (s : Sim) (a : List ℕ) (st : ℕ) :
    ∀ (o k pos : ℕ), findSlotAux s a st o k = some pos →
      (s.replicas.getD (a.getD pos 0) default).currentRequestIds.length <
        s.config.concurrencyTarget ∧ (a ≠ [] → pos < a.length) := by
  intro o k
  induction k generalizing o with
  | zero => exact fun pos h => Option.noConfusion h
  | succ k ih =>
    intro pos h
    rw [findSlotAux_succ] at h
    split at h
    · rename_i hguard
      have hp : (st + o) % a.length = pos := Option.some.inj h
      refine ⟨?_, ?_⟩
      · rw [← hp]
        exact hguard
      · intro hne
        rw [← hp]
        exact Nat.mod_lt _ (List.length_pos.mpr hne)
    · exact ih (o + 1) pos h

lemma assignReady_replicas (s : Sim) (a b c d : ℕ) :
    (assignReady s a b c d).replicas =
      claimSlot s.replicas (s.replicas.getD b default).id
        ((s.requests.getD a default).id) s.config.concurrencyTarget := by
  simp only [assignReady]
  rw [repositionQueue_replicas]

lemma assignToStartingReplicas_pool (s : Sim) (l : List ℕ)
    (hs : SimPoolInv s) : SimPoolInv (assignToStartingReplicas s l) := by
  have hf := assignToStartingReplicas_frame s l
  unfold SimPoolInv
  rw [hf.2.1, hf.2.2.2.1, hf.2.2.2.2.2.2.2.2.1]
  exact hs

lemma assignLoop_pool (activeIdx : List ℕ) (hne : activeIdx ≠ [])
    (len0 : ℕ) (hk : ∀ k ∈ activeIdx, k < len0) :
    ∀ (l : List ℕ) (s : Sim), SimPoolInv s → s.replicas.length = len0 →
      SimPoolInv (assignLoop activeIdx l s).1 ∧
        (assignLoop activeIdx l s).1.replicas.length = len0 := by
  intro l
  induction l with
  | nil => exact fun s h hl => ⟨h, hl⟩
  | cons i rest ih =>
    intro s hs hl
    simp only [assignLoop]
    split
    · rename_i pos hpos
      have hspec := findSlotAux_some_spec s activeIdx s.roundRobinIndex 0
        activeIdx.length pos hpos
      have hposlt : pos < activeIdx.length := hspec.2 hne
      have hreplt : activeIdx.getD pos 0 < len0 := by
        obtain ⟨v, hv⟩ : ∃ v, activeIdx.get? pos = some v := by
          cases hh : activeIdx.get? pos with
          | none =>
            have := List.get?_eq_none.mp hh
            omega
          | some v => exact ⟨v, rfl⟩
        have hgd : activeIdx.getD pos 0 = v := by
          rw [List.getD_eq_get?, hv]
          rfl
        rw [hgd]
        exact hk v (List.get?_mem hv)
      have hpool2 : SimPoolInv
          (assignReady s i (activeIdx.getD pos 0) pos activeIdx.length) := by
        have hfr := assignReady_frame s i (activeIdx.getD pos 0) pos
          activeIdx.length
        unfold SimPoolInv
        rw [hfr.2.2.1, hfr.2.2.2.2.2.2.2.1, assignReady_replicas]
        refine claimSlot_poolinv _ _ _ _ _ hs ?_
        exact c1_hfirst_dispatch s (activeIdx.getD pos 0) (by omega)
          hspec.1 hs
      have hlen2 : (assignReady s i (activeIdx.getD pos 0) pos
          activeIdx.length).replicas.length = len0 := by
        rw [assignReady_replicas, claimSlot_length]
        exact hl
      exact ih _ hpool2 hlen2
    · exact ⟨hs, hl⟩

lemma tryAssignToReplicas_pool (s : Sim) (hs : SimPoolInv s) :
    SimPoolInv (tryAssignToReplicas s) := by
  simp only [tryAssignToReplicas]
  split
  · exact assignToStartingReplicas_pool s _ hs
  · rename_i hne2
    have hne : activeReplicaIdx s.replicas ≠ [] := by
      intro h
      rw [h] at hne2
      exact hne2 rfl
    have hk : ∀ k ∈ activeReplicaIdx s.replicas, k < s.replicas.length := by
      intro k hkm
      have h1 := stableSort_mem _ _ k hkm
      have h2 := (List.mem_filter.mp h1).1
      exact List.mem_range.mp h2
    obtain ⟨h1, _⟩ := assignLoop_pool _ hne s.replicas.length hk
      (sortedQueuedIdx s.requests) s hs rfl
    exact assignToStartingReplicas_pool _ _ h1

lemma step_pool (s : Sim) (d : ℚ)
    (h : SimPoolInv s ∧ 1 ≤ s.config.concurrencyTarget) :
    SimPoolInv (s.step d) ∧ 1 ≤ (s.step d).config.concurrencyTarget := by
  refine step_inv (fun t => SimPoolInv t ∧ 1 ≤ t.config.concurrencyTarget)
    ?_ ?_ ?_ ?_ ?_ ?_ ?_ s d h
  · exact fun t e hh => hh
  · exact fun t i hh => ⟨updateRequestAt_pool t i hh.1,
      by rw [(updateRequestAt_frame t i).2.2.1]; exact hh.2⟩
  · exact fun t hh => ⟨mapUpdateReplica_pool t hh.2 hh.1, hh.2⟩
  · exact fun t hh => hh
  · exact fun t hh => ⟨handleAutoscaling_pool t hh.1,
      by rw [(handleAutoscaling_frame t).2.2.2.1]; exact hh.2⟩
  · exact fun t hh => ⟨tryAssignToReplicas_pool t hh.1,
      by rw [(tryAssignToReplicas_frame t).2.2.1]; exact hh.2⟩
  · exact fun t hh => hh

lemma init_replicas (cfg : SimConfig) : (Sim.init cfg).replicas = [] := by
  simp only [Sim.init]
  split
  · exact (setTargetReplicas_frame _ _).2.2.1
  · rfl

lemma init_config (cfg : SimConfig) : (Sim.init cfg).config = cfg := by
  simp only [Sim.init]
  split
  · exact (setTargetReplicas_frame _ _).2.2.2.2.1
  · rfl

lemma reset_replicas (s : Sim) : (Sim.reset s).replicas = [] := by
  simp only [Sim.reset]
  split
  · exact (setTargetReplicas_frame _ _).2.2.1
  · rfl

lemma reset_config (s : Sim) : (Sim.reset s).config = s.config := by
  simp only [Sim.reset]
  split
  · exact (setTargetReplicas_frame _ _).2.2.2.2.1
  · rfl

lemma empty_pool {target n : ℕ} {ps : List Replica} (h : ps = []) :
    PoolInv target n ps := by
  rw [h]
  refine ⟨?_, ?_, ?_⟩
  · intro p hp
    exact absurd hp (List.not_mem_nil p)
  · exact List.nodup_nil
  · intro x hx
    exact absurd hx (List.not_mem_nil x)

/-- Every reachable state under a fixed configuration satisfies the pool
invariant (given a positive scaling target). -/
lemma reach_pool (cfg : SimConfig) (ht : 1 ≤ cfg.concurrencyTarget) :
    ∀ s : Sim, Reach cfg s → SimPoolInv s := by
  intro s hs
  refine (reach_inv cfg
    (fun t => SimPoolInv t ∧ 1 ≤ t.config.concurrencyTarget)
    ?_ ?_ ?_ ?_ ?_ ?_ ?_ ?_ ?_ ?_ ?_ s hs).1
  · refine ⟨?_, ?_⟩
    · unfold SimPoolInv
      rw [init_replicas]
      exact empty_pool rfl
    · rw [init_config]
      exact ht
  · exact fun t d hh => step_pool t d hh
  · exact fun t p _ hh => hh
  · exact fun t n hh => hh
  · exact fun t x hh => hh
  · exact fun t b hh => hh
  · exact fun t hh => hh
  · intro t hh
    refine ⟨?_, ?_⟩
    · unfold SimPoolInv
      rw [reset_replicas]
      exact empty_pool rfl
    · rw [reset_config]
      exact hh.2
  · exact fun t hh => hh
  · exact fun t hh => hh
  · exact fun t hh => hh

/-- **C1** (amended): in every reachable state under a fixed configuration
with `concurrencyTarget ≥ 1`, every worker's claim list is bounded by
`concurrencyTarget`.  The engine never reads `predictConcurrency`; the
bound enforced by dispatch and the ready-claim is `concurrencyTarget`, so
the spec's `perWorkerConcurrency` (= `predictConcurrency`) bound fails
whenever the two fields differ (see the counterexample). -/
theorem C1_capacity_invariant (cfg : SimConfig)
    (ht : 1 ≤ cfg.concurrencyTarget) (s : Sim) (hs : Reach cfg s) :
    ∀ p ∈ s.replicas,
      p.currentRequestIds.length ≤ cfg.concurrencyTarget := by
  have hp := reach_pool cfg ht s hs
  have hc := reach_config cfg s hs
  intro p hpm
  have hb := (hp.1 p hpm).1
  rw [hc] at hb
  exact hb

/-- Witness for C1 at a concrete reachable state with a busy worker. -/
theorem C1_capacity_invariant_witness :
    ((capacityRun 33).replicas.getD 0 default).currentRequestIds.length ≤
      capacityCfg.concurrencyTarget :=
  C1_capacity_invariant capacityCfg (by decide) (capacityRun 33)
    (reach_capacityRun 33) ((capacityRun 33).replicas.getD 0 default)
    (by decide)

end AsyncFlow
